import Mathlib

/-!
Verification of the cythonpp preprocessing/merge engine (util/cythonpp.py).

The Python source is shallowly embedded: each Python function becomes an
executable Lean definition operating on explicit state.  Strings are Lean
strings; Python lists become Lean lists; Python sets are represented as
duplicate-free lists (canonically sorted where the code relies on sorted
output); fallible code returns Except.
-/

set_option maxRecDepth 100000

/-- Errors raised by the pipeline: SyntaxError (which the tool turns into an
abort via sys.exit), AssertionError and friends, and an out-of-fuel marker for
recursion depth that the Python code never reaches. -/
inductive PErr where
  | synErr (msg : String)
  | assertFail (msg : String)
  | fuelOut
deriving Repr, DecidableEq

/-- Python str.isspace set used by strip/lstrip/rstrip. -/
def pyIsSpace (c : Char) : Bool :=
  c = ' ' || c = '\t' || c = '\n' || c = '\r' || c = '\x0b' || c = '\x0c'

/-- Python line.lstrip(). -/
def pyLstrip (s : String) : String := ⟨s.data.dropWhile pyIsSpace⟩

/-- Python line.rstrip(). -/
def pyRstrip (s : String) : String := ⟨(s.data.reverse.dropWhile pyIsSpace).reverse⟩

/-- Python line.strip(). -/
def pyStrip (s : String) : String := pyLstrip (pyRstrip s)

def endsWithChar (s : String) (c : Char) : Bool := s.data.getLast? = some c

def startsWithChar (s : String) (c : Char) : Bool := s.data.head? = some c

/-- Last character dropped (Python s[:-1]). -/
def dropLastStr (s : String) : String := ⟨s.data.dropLast⟩

/-- Word character of the regex class backslash-w (ASCII). -/
def isWordChar (c : Char) : Bool := c.isAlphanum || c = '_'

/-- Python s.split(' ', 1): split at the first space character, if any. -/
def pySplitOnceSpace (s : String) : String × Option String :=
  let pre := s.data.takeWhile (· ≠ ' ')
  let post := s.data.dropWhile (· ≠ ' ')
  match post with
  | [] => (⟨pre⟩, none)
  | _ :: rest => (⟨pre⟩, some ⟨rest⟩)

/-- Python s.split(sep-newline) on character lists: code.split on a newline. -/
def splitNLAux : List Char → List (List Char)
  | [] => [[]]
  | c :: t =>
    let r := splitNLAux t
    if c = '\n' then [] :: r
    else
      match r with
      | h :: t2 => (c :: h) :: t2
      | [] => [[c]]

/-- Python code.split(newline). -/
def splitNL (s : String) : List String := (splitNLAux s.data).map (fun cs => ⟨cs⟩)

/-- Check of the tail of a directive against the regex fragment
one-or-more-whitespace followed by one-or-more-any.  The dollar anchor matches
at the end of the text or just before one final newline. -/
def wsThenBody (t : List Char) : Bool :=
  let u := if t.getLast? = some '\n' then t.dropLast else t
  (List.range u.length).any fun i =>
    1 ≤ i && (u.take i).all pyIsSpace && decide (u.drop i ≠ []) && !(u.drop i).contains '\n'

/-- The conditional-directive regex of the source
(hash then one of: ifdef+ws+body, if+ws+body, else+ws*, endif+ws*, anchored),
returning capture group 1 on success. -/
def conditionRe (s : String) : Option String :=
  match s.data with
  | '#' :: rest =>
    let body : String := ⟨rest⟩
    if rest.take 5 = ['i', 'f', 'd', 'e', 'f'] && wsThenBody (rest.drop 5) then some body
    else if rest.take 2 = ['i', 'f'] && wsThenBody (rest.drop 2) then some body
    else if rest.take 4 = ['e', 'l', 's', 'e'] && (rest.drop 4).all pyIsSpace then some body
    else if rest.take 5 = ['e', 'n', 'd', 'i', 'f'] && (rest.drop 5).all pyIsSpace then some body
    else none
  | _ => none

/-- match_condition from the source: strip the line, refuse anything ending in
a colon, otherwise try the conditional-directive regex. -/
def matchCondition (line : String) : Option String :=
  let l := pyStrip line
  if endsWithChar l ':' then none
  else conditionRe l

example : matchCondition "  #if defined(X)\n" = some "if defined(X)" := by decide
example : matchCondition "#ifdef FOO" = some "ifdef FOO" := by decide
example : matchCondition "#else" = some "else" := by decide
example : matchCondition "#endif  " = some "endif" := by decide
example : matchCondition "#if x:" = none := by decide
example : matchCondition "#define A 1" = none := by decide
example : matchCondition "plain" = none := by decide
example : matchCondition "#if" = none := by decide

instance {ε α : Type} [DecidableEq ε] [DecidableEq α] : DecidableEq (Except ε α) := fun a b =>
  match a, b with
  | .ok x, .ok y => decidable_of_iff (x = y) (by simp)
  | .ok _, .error _ => isFalse (by intro h; cases h)
  | .error _, .ok _ => isFalse (by intro h; cases h)
  | .error x, .error y => decidable_of_iff (x = y) (by simp)

/-- Parse of the parenthesized parameter-list fragment of the define regex:
open paren, then comma separated nonempty runs of characters other than comma
and close paren, then close paren.  Returns the consumed characters (with the
close paren) and the remainder.  The fuel argument is structural bookkeeping
only: every recursive call removes at least one character, so fuel equal to
the length of the input never runs out. -/
def parseParamGroupAux : Nat → List Char → Option (List Char × List Char)
  | 0, _ => none
  | fuel + 1, u =>
    let seg := u.takeWhile (fun c => c ≠ ',' && c ≠ ')')
    let rest := u.dropWhile (fun c => c ≠ ',' && c ≠ ')')
    if seg = [] then none
    else
      match rest with
      | ')' :: t => some (seg ++ [')'], t)
      | ',' :: t =>
        match parseParamGroupAux fuel t with
        | some (consumed, t2) => some (seg ++ [','] ++ consumed, t2)
        | none => none
      | _ => none

def parseParamGroup (u : List Char) : Option (List Char × List Char) :=
  parseParamGroupAux u.length u

/-- The define regex of the source: hash-define, whitespace, a name of a
leading letter or underscore and word characters, an optional parenthesized
parameter list, whitespace, then the value (the rest of the stripped line).
Returns (name, optional parameter group including parens, value). -/
def defineMatch (s : String) : Option (String × Option String × String) :=
  if s.data.take 7 = ['#', 'd', 'e', 'f', 'i', 'n', 'e'] then
    let t0 := s.data.drop 7
    let ws0 := t0.takeWhile pyIsSpace
    if ws0 = [] then none
    else
      let t1 := t0.dropWhile pyIsSpace
      match t1 with
      | c :: _ =>
        if c.isAlpha || c = '_' then
          let nameChars := t1.takeWhile isWordChar
          let t2 := t1.dropWhile isWordChar
          let noParams : Option (String × Option String × String) :=
            if (t2.takeWhile pyIsSpace) = [] then none
            else some (⟨nameChars⟩, none, ⟨t2.dropWhile pyIsSpace⟩)
          match t2 with
          | '(' :: u =>
            (match parseParamGroup u with
             | some (consumed, t3) =>
               if (t3.takeWhile pyIsSpace) = [] then noParams
               else some (⟨nameChars⟩, some ⟨'(' :: consumed⟩, ⟨t3.dropWhile pyIsSpace⟩)
             | none => noParams)
          | _ => noParams
        else none
      | [] => none
  else none

example : defineMatch "#define FOO 1" = some ("FOO", none, "1") := by decide
example : defineMatch "#define GREET(name) hello name" =
    some ("GREET", some "(name)", "hello name") := by decide
example : defineMatch "#define ADD(a,b) a + b" =
    some ("ADD", some "(a,b)", "a + b") := by decide
example : defineMatch "#define A(x)" = none := by decide
example : defineMatch "#define A" = none := by decide
example : defineMatch "#if X" = none := by decide
example : defineMatch "#define 1X y" = none := by decide

/-- A macro definition: body lines plus optional parameter names
(the dictionaries of the source with keys lines and params). -/
structure MacroDef where
  lines : List String
  params : Option (List String)
deriving Repr, DecidableEq

/-- The definitions dictionary: an insertion-ordered association list. -/
abbrev Defs := List (String × MacroDef)

/-- Dictionary write definitions[name] = v (replace in place or append). -/
def defsInsert (ds : Defs) (name : String) (v : MacroDef) : Defs :=
  match ds with
  | [] => [(name, v)]
  | (k, w) :: t => if k = name then (k, v) :: t else (k, w) :: defsInsert t name v

/-- Dictionary update appending a continuation line to definitions[name]. -/
def defsAppendLine (ds : Defs) (name : String) (value : String) : Defs :=
  match ds with
  | [] => []
  | (k, w) :: t =>
    if k = name then (k, { w with lines := w.lines ++ [value] }) :: t
    else (k, w) :: defsAppendLine t name value

def defsLookup (ds : Defs) (name : String) : Option MacroDef :=
  match ds with
  | [] => none
  | (k, w) :: t => if k = name then some w else defsLookup t name

/-- The parameter-name regex: a letter or underscore then word characters,
anchored on both sides. -/
def paramNameOk (s : String) : Bool :=
  match s.data with
  | c :: rest => (c.isAlpha || c = '_') && rest.all isWordChar
  | [] => false

/-- Python s.split(comma). -/
def splitCommaAux : List Char → List (List Char)
  | [] => [[]]
  | c :: t =>
    let r := splitCommaAux t
    if c = ',' then [] :: r
    else
      match r with
      | h :: t2 => (c :: h) :: t2
      | [] => [[c]]

/-- parse_parameter_names from the source: strip the parens, split on commas,
strip each name and validate it against the parameter-name regex. -/
def parseParameterNames (x : String) : Except PErr (List String) :=
  let inner := (x.data.drop 1).dropLast
  (splitCommaAux inner).mapM fun cs =>
    let p := pyStrip ⟨cs⟩
    if paramNameOk p then .ok p
    else .error (.synErr ("Invalid parameter name: " ++ p))

/-- parse_parameter_values from the source: strip the parens, split on commas,
strip each value. -/
def parseParameterValues (x : String) : List String :=
  let inner := (x.data.drop 1).dropLast
  (splitCommaAux inner).map fun cs => pyStrip ⟨cs⟩

example : parseParameterNames "(a, b)" = .ok ["a", "b"] := by decide
example : parseParameterValues "(world, 1+2)" = ["world", "1+2"] := by decide

/-- Python sep.join(strings). -/
def joinSep (sep : String) : List String → String
  | [] => ""
  | [x] => x
  | x :: xs => x ++ sep ++ joinSep sep xs

/-- Lexicographic order on character lists by code point (Python string order). -/
def listCharLt : List Char → List Char → Bool
  | [], [] => false
  | [], _ :: _ => true
  | _ :: _, [] => false
  | a :: as, b :: bs => if a = b then listCharLt as bs else decide (a < b)

/-- The sort key used for macro names: longest first, ties by name. -/
def keyBefore (a b : String) : Bool :=
  if a.data.length = b.data.length then listCharLt a.data b.data
  else decide (b.data.length < a.data.length)

def insertSortedBy (le : α → α → Bool) (x : α) : List α → List α
  | [] => [x]
  | y :: ys => if le x y then x :: y :: ys else y :: insertSortedBy le x ys

def sortBy (le : α → α → Bool) (l : List α) : List α := l.foldr (insertSortedBy le) []

/-- keys.sort with key (-len, name) from expand_definitions. -/
def sortedKeys (defs : Defs) : List String :=
  sortBy (fun a b => keyBefore a b || a = b) (defs.map (·.1))

/-- Third capture group of the macro-invocation regex, in alternation order:
a parenthesized argument list of at least one character other than close
paren, the dollar anchor (end of text or just before one final newline), a
double hash, or - as written in the source - any single character other than
the literal letter w.  Returns the matched text and the remainder. -/
def matchG3 (rest : List Char) : Option (List Char × List Char) :=
  let parens : Option (List Char × List Char) :=
    match rest with
    | '(' :: t =>
      let inner := t.takeWhile (· ≠ ')')
      let t2 := t.dropWhile (· ≠ ')')
      if inner ≠ [] then
        match t2 with
        | ')' :: t3 => some ('(' :: (inner ++ [')']), t3)
        | _ => none
      else none
    | _ => none
  let dollar : Option (List Char × List Char) :=
    match rest with
    | [] => some ([], [])
    | ['\n'] => some ([], ['\n'])
    | _ => none
  let hashhash : Option (List Char × List Char) :=
    match rest with
    | '#' :: '#' :: t => some (['#', '#'], t)
    | _ => none
  let nonW : Option (List Char × List Char) :=
    match rest with
    | c :: t => if c ≠ 'w' then some ([c], t) else none
    | [] => none
  parens <|> dollar <|> hashhash <|> nonW

/-- Second capture group: the macro-name alternation, longest name first, with
regex backtracking into the third group (a name alternative is kept only when
group three also matches after it). -/
def matchNameG3 : List String → List Char → Option (String × List Char × List Char)
  | [], _ => none
  | k :: ks, rest =>
    if k.data.isPrefixOf rest then
      match matchG3 (rest.drop k.data.length) with
      | some (g3, rem) => some (k, g3, rem)
      | none => matchNameG3 ks rest
    else matchNameG3 ks rest

/-- One full match of the macro-invocation regex. -/
structure MatchData where
  pre : List Char
  g1 : List Char
  name : String
  g3 : List Char
  post : List Char
deriving Repr, DecidableEq

/-- First capture group tried at one scan position, in alternation order:
start of text (empty), a double hash, or a single non-word character. -/
def tryMatchHere (keys : List String) (atStart : Bool) (rest : List Char) :
    Option (List Char × String × List Char × List Char) :=
  let a1 : Option (List Char × String × List Char × List Char) :=
    if atStart then (matchNameG3 keys rest).map (fun r => (([] : List Char), r.1, r.2.1, r.2.2))
    else none
  let a2 : Option (List Char × String × List Char × List Char) :=
    match rest with
    | '#' :: '#' :: t => (matchNameG3 keys t).map (fun r => ((['#', '#'] : List Char), r.1, r.2.1, r.2.2))
    | _ => none
  let a3 : Option (List Char × String × List Char × List Char) :=
    match rest with
    | c :: t =>
      if !isWordChar c then (matchNameG3 keys t).map (fun r => (([c] : List Char), r.1, r.2.1, r.2.2))
      else none
    | [] => none
  a1 <|> a2 <|> a3

/-- Leftmost match of the macro-invocation regex: scan positions left to
right, keeping the first position where some alternative matches. -/
def findMatchAux (keys : List String) (atStart : Bool) (seen rest : List Char) :
    Option MatchData :=
  match tryMatchHere keys atStart rest with
  | some (g1, n, g3, rem) => some ⟨seen.reverse, g1, n, g3, rem⟩
  | none =>
    match rest with
    | [] => none
    | c :: t => findMatchAux keys false (c :: seen) t

/-- The repl callback of expand_definitions, parameterized by the recursive
expander used for argument substitution. -/
def replWith (exp : Defs → String → Except PErr String) (defs : Defs) (m : MatchData) :
    Except PErr String :=
  match defsLookup defs m.name with
  | none => .error (.assertFail "token not in definitions")
  | some d =>
    let params := d.params.getD []
    if params ≠ [] then
      let g3s : String := ⟨m.g3⟩
      let args? : Option (List String) :=
        if startsWithChar g3s '(' && endsWithChar g3s ')' then some (parseParameterValues g3s)
        else none
      match args? with
      | some args =>
        if params.length = args.length then
          let localDefs : Defs := (params.zip args).map fun pv => (pv.1, ⟨[pv.2], none⟩)
          match exp localDefs (joinSep "\n" d.lines) with
          | .error e => .error e
          | .ok r => .ok (if m.g1 = ['#', '#'] then r else (⟨m.g1⟩ : String) ++ r)
        else .error (.synErr ("Invalid number of arguments for macro " ++ m.name))
      | none => .error (.synErr ("Invalid number of arguments for macro " ++ m.name))
    else
      let r0 := joinSep "\n" d.lines
      let r1 := if m.g3 = ['#', '#'] then r0 else r0 ++ (⟨m.g3⟩ : String)
      .ok (if m.g1 = ['#', '#'] then r1 else (⟨m.g1⟩ : String) ++ r1)

/-- One re_macro.subn(repl, code, count=1) step: replace the leftmost
invocation, reporting the replacement count. -/
def subnWith (exp : Defs → String → Except PErr String) (defs : Defs) (code : String) :
    Except PErr (String × Nat) :=
  match findMatchAux (sortedKeys defs) true [] code.data with
  | none => .ok (code, 0)
  | some m =>
    match replWith exp defs m with
    | .error e => .error e
    | .ok r => .ok ((⟨m.pre⟩ : String) ++ r ++ (⟨m.post⟩ : String), 1)

/-- The bounded substitution loop of expand_definitions: up to the given
number of single-replacement iterations; a reported replacement that leaves
the text unchanged is an infinite recursion; exhausting the bound while the
text still changes is too many substitutions. -/
def expandLoopW (exp : Defs → String → Except PErr String) (defs : Defs) :
    Nat → String → Except PErr String
  | 0, _ => .error (.synErr "Too many substitutions or internal error.")
  | n + 1, code =>
    match subnWith exp defs code with
    | .error e => .error e
    | .ok (newcode, count) =>
      if code = newcode then
        if count > 0 then .error (.synErr "Infinite recursion")
        else .ok newcode
      else expandLoopW exp defs n newcode

/-- expand_definitions from the source.  The depth argument bounds the
self-reference through the repl callback; local definitions built for macro
arguments never carry parameters, so the recursion never goes more than two
levels deep and the out-of-fuel branch is unreachable from expandDefinitions. -/
def expandCore : Nat → Defs → String → Except PErr String
  | 0, _, _ => .error .fuelOut
  | d + 1, defs, code =>
    if defs.isEmpty then .ok code
    else expandLoopW (expandCore d) defs 20000 code

def expandDefinitions (defs : Defs) (code : String) : Except PErr String :=
  expandCore 2 defs code

example : expandDefinitions [("GREET", ⟨["hello name"], some ["name"]⟩)] "GREET(world)\n" =
    .ok "hello world\n" := by decide
example : expandDefinitions [("GREET", ⟨["hello name"], some ["name"]⟩)] "GREET(world, extra)\n" =
    .error (.synErr "Invalid number of arguments for macro GREET") := by decide
example : expandDefinitions [("A", ⟨["1"], none⟩), ("B", ⟨["A+1"], none⟩)] "B\n" =
    .ok "1+1\n" := by decide
example : expandDefinitions [("FOO", ⟨["bar"], none⟩)] "FOOa" = .ok "bara" := by decide
example : expandDefinitions [("FOO", ⟨["bar"], none⟩)] "FOOw" = .ok "FOOw" := by decide
example : expandDefinitions [("FOO", ⟨["bar"], none⟩)] "xFOO()" = .ok "xFOO()" := by decide
example : expandDefinitions [("FOO", ⟨["bar"], none⟩)] " FOO(1)" = .ok " bar(1)" := by decide

/-- A single condition: name and polarity. -/
abbrev Cond := String × Bool

/-- The Config class of the source: a set of conditions. -/
structure PConfig where
  conditions : List Cond
deriving Repr, DecidableEq

/-- Config.is_condition_true from the source. -/
def isConditionTrue (cfg : PConfig) (directive : String) : Except PErr Bool :=
  if directive.data.take 4 = ['#', 'i', 'f', ' '] then
    let param := (pySplitOnceSpace directive).2.getD ""
    .ok (decide ((param, true) ∈ cfg.conditions))
  else if directive.data.take 7 = ['#', 'i', 'f', 'd', 'e', 'f', ' '] then
    let p := (pySplitOnceSpace directive).2.getD ""
    .ok (decide (("defined(" ++ p ++ ")", true) ∈ cfg.conditions))
  else .error (.assertFail ("Invalid directive: " ++ directive))

/-- An output line of the preprocessor: text plus originating source line
number (the Str_sourceline subclass of the source). -/
structure PLine where
  text : String
  sourceline : Nat
deriving Repr, DecidableEq

/-- State threaded through one preprocessing pass. -/
structure PState where
  currentName : Option String
  definitions : Defs
  includingSection : List Bool
  result : List PLine
deriving Repr, DecidableEq

/-- Splitting of one expansion result into emitted lines: split on newlines,
drop one trailing empty piece, re-append a newline to every piece, and tag
each piece with the source line number. -/
def splitExpansion (ex : String) (idx : Nat) : List PLine :=
  let ls := splitNL ex
  let ls := if ls.getLast? = some "" then ls.dropLast else ls
  (ls.map (· ++ "\n")).map fun t => ⟨t, idx⟩

/-- One line of preprocess_filename from the source: macro-definition
continuation, new define, conditional directive resolution when a
configuration is supplied, skipping while the innermost including-section
entry is false, verbatim hash lines, and macro expansion of ordinary lines. -/
def preprocessStep (config : Option PConfig) (idx : Nat) (st : PState) (line : String) :
    Except PErr PState :=
  let rstripped := pyRstrip line
  let stripped := pyLstrip rstripped
  match st.currentName with
  | some name =>
    let value := rstripped
    if endsWithChar value '\\' then
      .ok { st with definitions := defsAppendLine st.definitions name (pyRstrip (dropLastStr value)) }
    else
      .ok { st with currentName := none, definitions := defsAppendLine st.definitions name value }
  | none =>
    let m := if st.includingSection = [] || st.includingSection.head? = some true then
      defineMatch stripped else none
    match m with
    | some (name, params?, value0) =>
      let v1 := pyStrip value0
      let (value, newCurrent) :=
        if endsWithChar v1 '\\' then (pyRstrip (dropLastStr v1), some name) else (v1, none)
      match params? with
      | none =>
        .ok { st with currentName := newCurrent,
                      definitions := defsInsert st.definitions name ⟨[value], none⟩ }
      | some ps =>
        match parseParameterNames ps with
        | .error e => .error e
        | .ok names =>
          .ok { st with currentName := newCurrent,
                        definitions := defsInsert st.definitions name ⟨[value], some names⟩ }
    | none =>
      match config, matchCondition stripped with
      | some cfg, some _ =>
        if stripped = "#else" then
          match st.includingSection with
          | [] => .error (.synErr "unexpected #else")
          | b :: rest => .ok { st with includingSection := (!b) :: rest }
        else if stripped = "#endif" then
          match st.includingSection with
          | [] => .error (.synErr "unexpected #endif")
          | _ :: rest => .ok { st with includingSection := rest }
        else
          match isConditionTrue cfg stripped with
          | .error e => .error e
          | .ok b => .ok { st with includingSection := b :: st.includingSection }
      | _, _ =>
        if st.includingSection.head? = some false then .ok st
        else if startsWithChar stripped '#' then
          .ok { st with result := st.result ++ [⟨line, idx⟩] }
        else
          match expandDefinitions st.definitions line with
          | .error e => .error e
          | .ok ex => .ok { st with result := st.result ++ splitExpansion ex idx }

def preprocessAux (config : Option PConfig) : Nat → PState → List String → Except PErr PState
  | _, st, [] => .ok st
  | idx, st, l :: ls =>
    match preprocessStep config idx st l with
    | .error e => .error e
    | .ok st2 => preprocessAux config (idx + 1) st2 ls

def initPState : PState := ⟨none, [], [], []⟩

/-- preprocess_filename from the source, over the list of physical lines of
the file. -/
def preprocessFilename (lines : List String) (config : Option PConfig) :
    Except PErr (List PLine) :=
  (preprocessAux config 0 initPState lines).map (·.result)

example : preprocessFilename ["#define X world\n", "X\n"] none = .ok [⟨"world\n", 1⟩] := by
  decide
example : preprocessFilename ["#if A\n", "x\n", "#else\n", "y\n", "#endif\n"]
    (some ⟨[("A", true)]⟩) = .ok [⟨"x\n", 1⟩] := by decide
example : preprocessFilename ["#if A\n", "x\n", "#else\n", "y\n", "#endif\n"]
    (some ⟨[("A", false)]⟩) = .ok [⟨"y\n", 3⟩] := by decide
example : preprocessFilename ["#ifdef F\n", "a\n", "#endif\n"]
    (some ⟨[("defined(F)", true)]⟩) = .ok [⟨"a\n", 1⟩] := by decide
example : preprocessFilename ["#if A\n", "x\n", "#endif\n"] none =
    .ok [⟨"#if A\n", 0⟩, ⟨"x\n", 1⟩, ⟨"#endif\n", 2⟩] := by decide
example : preprocessFilename ["#else\n"] (some ⟨[]⟩) =
    .error (.synErr "unexpected #else") := by decide

def assocLookup [DecidableEq κ] (l : List (κ × β)) (k : κ) : Option β :=
  match l with
  | [] => none
  | (k2, v) :: t => if k2 = k then some v else assocLookup t k

/-- Python order on conditions (name, polarity): tuple comparison with string
order on the name and False before True on the polarity. -/
def condLtB (a b : Cond) : Bool :=
  if a.1 = b.1 then !a.2 && b.2 else listCharLt a.1.data b.1.data

def condLe (a b : Cond) : Bool := condLtB a b || a = b

/-- Python order on tuples of conditions (lexicographic, prefixes first). -/
def condsLt : List Cond → List Cond → Bool
  | [], [] => false
  | [], _ :: _ => true
  | _ :: _, [] => false
  | a :: as, b :: bs => if a = b then condsLt as bs else condLtB a b

/-- Sorted duplicate-free insertion: the canonical representation used for
Python sets. -/
def setInsertBy [DecidableEq α] (ltB : α → α → Bool) (x : α) : List α → List α
  | [] => [x]
  | y :: ys => if x = y then y :: ys else if ltB x y then x :: y :: ys else y :: setInsertBy ltB x ys

/-- Canonical (sorted, duplicate-free) form of a Python set given as a list. -/
def canonSetBy [DecidableEq α] (ltB : α → α → Bool) (l : List α) : List α :=
  l.foldl (fun acc x => setInsertBy ltB x acc) []

/-- State of get_conditions: the set of observed condition stacks (in
insertion order) and the current directive stack (outermost first, matching
the Python list). -/
structure GCState where
  conditions : List (List Cond)
  stack : List Cond
deriving Repr, DecidableEq

/-- One line of get_conditions from the source. -/
def getCondStep (st : GCState) (line : String) : Except PErr GCState :=
  match matchCondition line with
  | none =>
    .ok { st with conditions :=
      if st.stack ∈ st.conditions then st.conditions else st.conditions ++ [st.stack] }
  | some g =>
    let sp := pySplitOnceSpace (pyStrip g)
    match sp.2 with
    | none =>
      let directive := pyStrip sp.1
      if directive = "else" then
        match st.stack.getLast? with
        | none => .error (.synErr "Unexpected #else")
        | some (lastCond, flag) =>
          if flag = true then .ok { st with stack := st.stack.dropLast ++ [(lastCond, !flag)] }
          else .error (.assertFail "flag is not True")
      else if directive = "endif" then
        match st.stack with
        | [] => .error (.synErr "Unexpected #endif")
        | _ => .ok { st with stack := st.stack.dropLast }
      else .error (.assertFail ("directive " ++ directive))
    | some rest =>
      let directive := pyStrip sp.1
      let parameter := pyStrip rest
      if directive = "if" then .ok { st with stack := st.stack ++ [(parameter, true)] }
      else if directive = "ifdef" then
        .ok { st with stack := st.stack ++ [("defined(" ++ parameter ++ ")", true)] }
      else .error (.assertFail ("directive " ++ directive))

def getCondAux (st : GCState) : List String → Except PErr GCState
  | [] => .ok st
  | l :: ls =>
    match getCondStep st l with
    | .error e => .error e
    | .ok st2 => getCondAux st2 ls

/-- get_conditions from the source: the set of distinct condition stacks
observed at non-directive lines. -/
def getConditions (lines : List String) : Except PErr (List (List Cond)) :=
  (getCondAux ⟨[], []⟩ lines).map (·.conditions)

/-- product(items, repeat=n) from the source. -/
def pyProduct (pool : List α) : Nat → List (List α)
  | 0 => [[]]
  | n + 1 => (pyProduct pool n).flatMap fun x => pool.map fun y => x ++ [y]

/-- flat_tuple from the source. -/
def flatTuple (x : List (List Cond)) : List Cond := x.flatten

/-- get_selections from the source: every selection of one stack per repeat
position, as the flattened sorted set of the chosen stacks, collected as a
set. -/
def getSelections (items : List (List Cond)) : List (List Cond) :=
  canonSetBy condsLt
    ((pyProduct items items.length).map fun choice => flatTuple (canonSetBy condsLt choice))

/-- is_impossible from the source: a configuration naming one condition with
two polarities. -/
def isImpossibleAux (seen : List (String × Bool)) : List Cond → Bool
  | [] => false
  | (c, flag) :: t =>
    match assocLookup seen c with
    | some f => if f ≠ flag then true else isImpossibleAux seen t
    | none => isImpossibleAux ((c, flag) :: seen) t

def isImpossible (configuration : List Cond) : Bool := isImpossibleAux [] configuration

def strLtB (a b : String) : Bool := listCharLt a.data b.data

/-- The body of get_configurations from the source, after the conditions have
been extracted: keep the possible selections, complete each with (name, False)
for every missing name, sort, and collect as a set. -/
def configsFromConditions (conditions : List (List Cond)) : List (List Cond) :=
  let configurations := (getSelections conditions).filter (fun c => !isImpossible c)
  let allconds := canonSetBy strLtB (configurations.flatten.map (·.1))
  let result := configurations.map fun cfg =>
    let names := cfg.map (·.1)
    let missing := allconds.filter (fun n => !(names.contains n))
    sortBy condLe (cfg ++ missing.map (fun n => (n, false)))
  canonSetBy condsLt result

/-- get_configurations from the source. -/
def getConfigurations (lines : List String) : Except PErr (List (List Cond)) :=
  match getConditions lines with
  | .error e => .error e
  | .ok conditions => .ok (configsFromConditions conditions)

example : getConditions ["#if X\n", "a\n", "#else\n", "b\n", "#endif\n"] =
    .ok [[("X", true)], [("X", false)]] := by decide
example : getConfigurations ["hello\n"] = .ok [[]] := by decide
example : getConfigurations ["#if X\n", "a\n", "#else\n", "b\n", "#endif\n"] =
    .ok [[("X", false)], [("X", true)]] := by decide
example : getConfigurations
    ["#if X\n", "a\n", "#else\n", "b\n", "#endif\n", "#if Y\n", "c\n", "#else\n", "d\n",
      "#endif\n"] =
    .ok [[("X", false), ("Y", false)], [("X", false), ("Y", true)],
      [("X", true), ("Y", false)], [("X", true), ("Y", true)]] := by decide

/-- A Tag: an AND-set of conditions under which a line appears. -/
abbrev Tag := List Cond

/-- A TagList: an OR-list of Tags. -/
abbrev TagList := List Tag

/-- Python list.remove / set.remove: drop the first occurrence of a value. -/
def eraseFirst [DecidableEq α] : List α → α → List α
  | [], _ => []
  | x :: xs, y => if x = y then xs else x :: eraseFirst xs y

/-- reverted from the source: flip the polarity of one condition. -/
def revertedCond (item : Cond) : Cond := (item.1, !item.2)

/-- The inner item loop of simplify_tags for one pair of tags: find an item of
the first tag whose complement is in the second and whose removal makes the
two tags equal; return the common part. -/
def findAbsorbAux (t1 t2 : Tag) : List Cond → Option Tag
  | [] => none
  | item :: rest =>
    if revertedCond item ∈ t2 then
      let c1 := eraseFirst t1 item
      let c2 := eraseFirst t2 (revertedCond item)
      if c1 = c2 then some c1 else findAbsorbAux t1 t2 rest
    else findAbsorbAux t1 t2 rest

/-- The rewrite performed by one simplify_tags scan over a pair of tags. -/
inductive SimpAct where
  | dup (t : Tag)
  | absorb (t1 t2 common : Tag)
deriving Repr, DecidableEq

def pairAct (t1 t2 : Tag) : Option SimpAct :=
  if t1 = t2 then some (.dup t1)
  else
    match findAbsorbAux t1 t2 t1 with
    | some c => some (.absorb t1 t2 c)
    | none => none

def findPairsAux (t1 : Tag) : List Tag → Option SimpAct
  | [] => none
  | t2 :: rest =>
    match pairAct t1 t2 with
    | some a => some a
    | none => findPairsAux t1 rest

/-- Scan of combinations(tags, 2) in order, returning the first applicable
duplicate-removal or absorption rewrite. -/
def findPairs : List Tag → Option SimpAct
  | [] => none
  | t1 :: rest =>
    match findPairsAux t1 rest with
    | some a => some a
    | none => findPairs rest

/-- simplify_tags from the source: repeatedly drop the first empty tag, drop
one of two equal tags, or merge two tags equal up to one complemented
condition into their common part, until no rule applies.  Every rewrite
shortens the list by one, so fuel equal to the initial length never runs out
and the fuel-zero branch (which can only see an empty list) agrees with the
unbounded recursion. -/
def simplifyAux : Nat → TagList → TagList
  | 0, tags => tags
  | fuel + 1, tags =>
    if ([] : Tag) ∈ tags then simplifyAux fuel (eraseFirst tags [])
    else
      match findPairs tags with
      | some (.dup t) => simplifyAux fuel (eraseFirst tags t)
      | some (.absorb t1 t2 c) => simplifyAux fuel ((eraseFirst (eraseFirst tags t1) t2) ++ [c])
      | none => tags

def simplifyTags (tags : TagList) : TagList := simplifyAux tags.length tags

example : simplifyTags
    [[("defined(world)", true), ("defined(hello)", true)],
      [("defined(world)", false), ("defined(hello)", true)]] =
    [[("defined(hello)", true)]] := by decide
example : simplifyTags
    [[("defined(LIBEV_EMBED)", true), ("defined(_WIN32)", true)],
      [("defined(LIBEV_EMBED)", true), ("defined(_WIN32)", false)],
      [("defined(_WIN32)", false), ("defined(LIBEV_EMBED)", false)],
      [("defined(LIBEV_EMBED)", false), ("defined(_WIN32)", true)]] = [] := by decide
example : simplifyTags [[("C", true)], [("C", false)]] = [] := by decide

/-- Truth of one Tag under an assignment of the condition names. -/
def evalTag (v : String → Bool) (t : Tag) : Bool := t.all fun c => v c.1 == c.2

/-- Truth of a TagList under an assignment: the empty TagList means
unconditionally present, otherwise the disjunction of its tags. -/
def denoteTags (v : String → Bool) (tags : TagList) : Bool :=
  if tags = [] then true else tags.any (evalTag v)

/-- format_cond from the source. -/
def formatCond (c : Cond) : String := if c.2 then c.1 else "!" ++ c.1

/-- format_tag from the source (conditions sorted, joined by and). -/
def formatTag (t : Tag) : String :=
  joinSep " && " ((sortBy condLe t).map formatCond)

/-- format_tags from the source (tags parenthesized, joined by or). -/
def formatTags (ts : TagList) : String :=
  joinSep " || " (ts.map fun t => "(" ++ formatTag t ++ ")")

/-- Python sorted on a two-element list of booleans. -/
def sortTwoBools (a b : Bool) : List Bool := if a = true && b = false then [b, a] else [a, b]

/-- exact_reverse from the source: both tag lists are single single-condition
tags over the same name with opposite polarities. -/
def exactReverse (tags1 tags2 : TagList) : Bool :=
  match tags1, tags2 with
  | [], _ => false
  | _, [] => false
  | [t1], [t2] =>
    (match t1, t2 with
     | [c1], [c2] =>
       if c1.1 = c2.1 then decide (sortTwoBools c1.2 c2.2 = [false, true]) else false
     | _, _ => false)
  | _, _ => false

/-- A compiled output line carrying its TagList (the Str subclass). -/
structure TaggedLine where
  text : String
  tags : TagList
deriving Repr, DecidableEq

/-- attach_tags from the source: split the text into newline-terminated lines,
each tagged with the configuration set. -/
def attachTags (text : String) (cfg : List Cond) : List TaggedLine :=
  let ls := splitNL text
  let ls := if ls.getLast? = some "" then ls.dropLast else ls
  ls.map fun x => ⟨x ++ "\n", [canonSetBy condLtB cfg]⟩

def elseLine (state : TagList) : String := "#else /* " ++ formatTags state ++ " */\n"

def endifLine (state : TagList) : String := "#endif /* " ++ formatTags state ++ " */\n"

def ifLine (key : TagList) : String := "#if " ++ formatTags key ++ "\n"

/-- produce_preprocessor from the source: walk the merged lines, tracking the
open tag (the empty TagList standing for no open block), emitting else for an
exact polarity complement and endif / if otherwise. -/
def produceAux (state : TagList) : List TaggedLine → List String
  | [] => if state ≠ [] then [endifLine state] else []
  | l :: rest =>
    let key := l.tags
    if key = state then l.text :: produceAux state rest
    else if exactReverse key state then elseLine state :: l.text :: produceAux key rest
    else
      (if state ≠ [] then [endifLine state] else []) ++
        (if key ≠ [] then [ifLine key] else []) ++
        (l.text :: produceAux key rest)

def producePre (ls : List TaggedLine) : List String := produceAux [] ls

example :
    producePre
      [⟨"a\n", [[("C", true)]]⟩, ⟨"b\n", [[("C", false)]]⟩] =
    ["#if (C)\n", "a\n", "#else /* (C) */\n", "b\n", "#endif /* (!C) */\n"] := by decide
example :
    producePre [⟨"a\n", []⟩, ⟨"b\n", [[("C", true)]]⟩, ⟨"c\n", []⟩] =
    ["a\n", "#if (C)\n", "b\n", "#endif /* (C) */\n", "c\n"] := by decide

def assocInsert [DecidableEq κ] (l : List (κ × β)) (k : κ) (v : β) : List (κ × β) :=
  match l with
  | [] => [(k, v)]
  | (k2, w) :: t => if k2 = k then (k2, v) :: t else (k2, w) :: assocInsert t k v

/-- Substring test (Python in-operator on strings). -/
def hasSub : List Char → List Char → Bool
  | hay, needle =>
    if needle.isPrefixOf hay then true
    else
      match hay with
      | [] => needle.isEmpty
      | _ :: t => hasSub t needle

/-- Python str.replace: non-overlapping left-to-right replacement.  Fuel is
the length of the text; every step consumes at least one character. -/
def replaceSubAux : Nat → List Char → List Char → List Char → List Char
  | 0, hay, _, _ => hay
  | fuel + 1, hay, needle, repl =>
    match hay with
    | [] => []
    | c :: t =>
      if needle ≠ [] && needle.isPrefixOf (c :: t) then
        repl ++ replaceSubAux fuel ((c :: t).drop needle.length) needle repl
      else c :: replaceSubAux fuel t needle repl

def strReplace (s needle repl : String) : String :=
  ⟨replaceSubAux s.data.length s.data needle.data repl.data⟩

def newlineToken : String := " <cythonpp.py: REPLACE WITH NEWLINE!> "

def lineWithSimplifiedTags (l : TaggedLine) : TaggedLine := ⟨l.text, simplifyTags l.tags⟩

def lcsLenAux : Nat → List String → List String → Nat
  | 0, _, _ => 0
  | fuel + 1, a :: as, b :: bs =>
    if a = b then 1 + lcsLenAux fuel as bs
    else max (lcsLenAux fuel as (b :: bs)) (lcsLenAux fuel (a :: as) bs)
  | _ + 1, _, _ => 0

/-- Modelled from the spec: the pairwise fold step of the Variant Merger uses
difflib.SequenceMatcher, which is not part of this repository; the spec
describes it as a longest-common-subsequence-style alignment in which
aligned equal lines produce one line carrying the concatenation of both
sides' tags and non-equal spans pass both sides through unchanged.  This is a
plain longest-common-subsequence alignment with those actions. -/
def mergeTwoAux : Nat → List TaggedLine → List TaggedLine → List TaggedLine
  | 0, a, b => a ++ b
  | _ + 1, [], ys => ys
  | _ + 1, x :: xs, [] => x :: xs
  | fuel + 1, x :: xs, y :: ys =>
    if x.text = y.text then ⟨x.text, x.tags ++ y.tags⟩ :: mergeTwoAux fuel xs ys
    else if lcsLenAux (xs.length + ys.length + 1) (xs.map (·.text)) ((y :: ys).map (·.text)) ≥
        lcsLenAux (xs.length + ys.length + 1) ((x :: xs).map (·.text)) (ys.map (·.text)) then
      x :: mergeTwoAux fuel xs (y :: ys)
    else y :: mergeTwoAux fuel (x :: xs) ys

def mergeTwo (a b : List TaggedLine) : List TaggedLine := mergeTwoAux (a.length + b.length) a b

/-- merge from the source: fold the variant outputs pairwise left to right;
a single remaining source gets its tags simplified line by line. -/
def mergeAux : Nat → List (List TaggedLine) → List TaggedLine
  | _, [] => []
  | _, [s] => s.map lineWithSimplifiedTags
  | 0, ss => ss.flatten
  | fuel + 1, a :: b :: rest => mergeAux fuel (mergeTwo a b :: rest)

def mergeSources (sources : List (List TaggedLine)) : List TaggedLine :=
  mergeAux sources.length sources

/-- generate_merged from the source. -/
def generateMerged (sources : List (List TaggedLine)) : String :=
  String.join ((producePre (mergeSources sources)).map fun l => strReplace l newlineToken "\n")

/-- Key of the preprocessed-variants dictionary: a configuration, or none for
the reference pass. -/
abbrev CfgKey := Option (List Cond)

/-- One while-iteration of expand_to_match: find the minimal pending source
line number (none when all streams are exhausted), move every stream head at
or below it to that stream's output, then pad all outputs with blank lines to
equal length. -/
def etmRound (st : List (CfgKey × List String × List PLine)) :
    Option (List (CfgKey × List String × List PLine)) :=
  let mins := st.filterMap fun e => (e.2.2.head?).map (·.sourceline)
  match mins with
  | [] => none
  | _ =>
    let m := mins.foldl min (2 ^ 30)
    let st2 := st.map fun e =>
      match e.2.2 with
      | l :: rest =>
        if l.sourceline ≤ m then (e.1, e.2.1 ++ [l.text], rest) else (e.1, e.2.1, l :: rest)
      | [] => (e.1, e.2.1, [])
    let maxlen := (st2.map fun e => e.2.1.length).foldl max 0
    some (st2.map fun e => (e.1, e.2.1 ++ List.replicate (maxlen - e.2.1.length) "\n", e.2.2))

def etmLoop : Nat → List (CfgKey × List String × List PLine) →
    List (CfgKey × List String × List PLine)
  | 0, st => st
  | fuel + 1, st =>
    match etmRound st with
    | none => st
    | some st2 => etmLoop fuel st2

/-- expand_to_match from the source.  Fuel is the total number of pending
lines; every successful round consumes at least one. -/
def expandToMatch (items : List (CfgKey × List PLine)) : List (CfgKey × List String) :=
  let st := items.map fun e => (e.1, ([] : List String), e.2)
  let total := (items.map fun e => e.2.length).foldl (· + ·) 0
  (etmLoop total st).map fun e => (e.1, e.2.1)

example :
    expandToMatch
      [(some [("A", true)], [⟨"x\n", 1⟩]), (some [("A", false)], [⟨"y\n", 3⟩]),
        (none, [⟨"#if A\n", 0⟩, ⟨"x\n", 1⟩, ⟨"#else\n", 2⟩, ⟨"y\n", 3⟩, ⟨"#endif\n", 4⟩])] =
    [(some [("A", true)], ["\n", "x\n", "\n", "\n", "\n"]),
      (some [("A", false)], ["\n", "\n", "\n", "y\n", "\n"]),
      (none, ["#if A\n", "x\n", "#else\n", "y\n", "#endif\n"])] := by decide

/-- File lines as Python file iteration yields them: newline kept, a final
piece without newline kept, nothing for empty input. -/
def joinPiecesNL : List (List Char) → List String
  | [] => []
  | [last] => if last = [] then [] else [(⟨last⟩ : String)]
  | p :: rest => (⟨p ++ ['\n']⟩ : String) :: joinPiecesNL rest

def linesWithNL (s : String) : List String := joinPiecesNL (splitNLAux s.data)

example : linesWithNL "a\nb\n" = ["a\n", "b\n"] := by decide
example : linesWithNL "a\nb" = ["a\n", "b"] := by decide
example : linesWithNL "" = [] := by decide

def lowerStr (s : String) : String := ⟨s.data.map Char.toLower⟩

/-- Text before the first occurrence of a separator (Python split(sep, 1)[0]). -/
def takeUntilSub : Nat → List Char → List Char → List Char
  | 0, hay, _ => hay
  | fuel + 1, hay, needle =>
    match hay with
    | [] => []
    | c :: t => if needle.isPrefixOf (c :: t) then [] else c :: takeUntilSub fuel t needle

/-- Line normalization at the top of the postprocess loop: strip trailing
whitespace before the newline. -/
def postprocessLine1 (line : String) : String :=
  if endsWithChar line '\n' then pyRstrip (dropLastStr line) ++ "\n" else line

/-- The comment-folding loop of postprocess_cython_output. -/
def postprocessBody (inComment : Bool) : List String → List String
  | [] => []
  | line0 :: rest =>
    let line := postprocessLine1 line0
    if inComment then
      if hasSub line.data ['*', '/'] then line :: postprocessBody false rest
      else strReplace line "\n" newlineToken :: postprocessBody true rest
    else
      if (pyLstrip line).data.take 3 = ['/', '*', ' '] && !hasSub line.data ['*', '/'] then
        strReplace (pyLstrip line) "\n" newlineToken :: postprocessBody true rest
      else line :: postprocessBody false rest

/-- postprocess_cython_output from the source: prepend the banner, strip the
timestamp from a generated-by-cython first line, and fold multi-line C
comments onto one line using the newline token. -/
def postprocessCythonOutput (content : String) (banner : String) : String :=
  let ls := linesWithNL content
  let firstline := ls.headD ""
  let stripped := pyStrip firstline
  let fl :=
    if (lowerStr stripped).data.take 23 = "/* generated by cython ".data &&
        (stripped.data.reverse.take 2 = ['/', '*']) then
      (⟨takeUntilSub stripped.data.length stripped.data " on ".data⟩ : String) ++ " */"
    else firstline
  "/* " ++ banner ++ " */\n" ++ fl ++ String.join (postprocessBody false ls.tail)

example : postprocessCythonOutput "OUTF\n" "B" = "/* B */\nOUTF\n" := by decide
example : postprocessCythonOutput "/* Generated by Cython 0.19 on 2013 */\nx\n" "B" =
    "/* B */\n/* Generated by Cython 0.19 */x\n" := by decide

/-- The filesystem as seen by the pipeline: a map from path to content. -/
structure FS where
  files : List (String × String)
deriving Repr, DecidableEq

def fsGet (fs : FS) (p : String) : Option String := assocLookup fs.files p

def fsSet (fs : FS) (p v : String) : FS := ⟨assocInsert fs.files p v⟩

def fsRemove (fs : FS) (p : String) : FS := ⟨fs.files.filter fun e => e.1 != p⟩

/-- atomic_write from the source: write a temporary sibling file, then rename
it over the destination. -/
def atomicWrite (fs : FS) (filename data : String) : FS :=
  let tmpname := filename ++ ".tmp.0"
  let fs1 := fsSet fs tmpname data
  fsSet (fsRemove fs1 tmpname) filename data

/-- run_cython from the source.  The external compiler is a parameter mapping
the content of the input file to the text it writes to the output file, or
none for a nonzero exit status (which the source raises as an AssertionError).
On a cache hit nothing is recompiled and the filesystem is untouched. -/
def runCython (compiler : String → Option String) (fs : FS) (cache : List (String × String))
    (filename sourcehash outputFilename banner : String) :
    FS × List (String × String) × Except PErr String :=
  match assocLookup cache sourcehash with
  | some r => (fs, cache, .ok r)
  | none =>
    match fsGet fs filename with
    | none => (fs, cache, .error (.assertFail "missing input file"))
    | some src =>
      match compiler src with
      | none => (fs, cache, .error (.assertFail "command failed"))
      | some out =>
        let fs1 := fsSet fs outputFilename out
        let result := postprocessCythonOutput ((fsGet fs1 outputFilename).getD "") banner
        (fs1, assocInsert cache sourcehash result, .ok result)

/-- Python filename.rsplit(dot, 1)[0]. -/
def stemOf (s : String) : String :=
  let rev := s.data.reverse
  if rev.contains '.' then ⟨((rev.dropWhile (· ≠ '.')).drop 1).reverse⟩ else s

example : stemOf "m.ppyx" = "m" := by decide
example : stemOf "a.b.c" = "a.b" := by decide

/-- The per-configuration loop of process_filename: write the preprocessed
variant to the pyx sibling, compile it (writing the compiler output to the
destination path), postprocess, and accumulate the tagged source; abort on the
first failure, keeping the filesystem as it then stands. -/
def compileLoop (compiler : String → Option String) (hash : String → String)
    (banner pyBanner pyx outF : String) :
    FS → List (String × String) → List (List TaggedLine) → List (List Cond × String) →
    FS × List (List TaggedLine) × Option PErr
  | fs, _, sources, [] => (fs, sources, none)
  | fs, cache, sources, (cfg, value) :: rest =>
    let fs1 := atomicWrite fs pyx (pyBanner ++ value)
    match runCython compiler fs1 cache pyx (hash value) outF banner with
    | (fs2, cache2, .ok output) =>
      compileLoop compiler hash banner pyBanner pyx outF fs2 cache2
        (sources ++ [attachTags output cfg]) rest
    | (fs2, _, .error e) => (fs2, sources, some e)

/-- process_filename from the source, over an explicit filesystem.  The
external compiler and the content hash are parameters; the banner replaces the
timestamp.  Returns the final filesystem together with the outcome; on any
failure the run aborts at that point and the filesystem keeps whatever had
been written so far. -/
def processFilename (compiler : String → Option String) (hash : String → String)
    (banner : String) (fs0 : FS) (filename : String) : FS × Except PErr Unit :=
  let outputFilename := stemOf filename ++ ".c"
  let pyxFilename := stemOf filename ++ ".pyx"
  if pyxFilename = filename then (fs0, .error (.assertFail "pyx filename equals input"))
  else
    let pyBanner := "# " ++ banner ++ "\n"
    match fsGet fs0 filename with
    | none => (fs0, .error (.assertFail "missing file"))
    | some content =>
      let lines := linesWithNL content
      match getConfigurations lines with
      | .error e => (fs0, .error e)
      | .ok cfgs =>
        match cfgs.mapM fun c => (preprocessFilename lines (some ⟨c⟩)).map fun r => (c, r) with
        | .error e => (fs0, .error e)
        | .ok pre =>
          match preprocessFilename lines none with
          | .error e => (fs0, .error e)
          | .ok ref =>
            let items : List (CfgKey × List PLine) :=
              (pre.map fun p => ((some p.1 : CfgKey), p.2)) ++ [(none, ref)]
            let etm := expandToMatch items
            let referencePyx := (assocLookup etm none).getD []
            let work := cfgs.map fun c => (c, String.join ((assocLookup etm (some c)).getD []))
            match compileLoop compiler hash banner pyBanner pyxFilename outputFilename
                fs0 [] [] work with
            | (fs1, _, some e) => (fs1, .error e)
            | (fs1, sources, none) =>
              let result := generateMerged sources
              let fs2 := atomicWrite fs1 outputFilename result
              let fs3 :=
                if filename ≠ pyxFilename then
                  atomicWrite fs2 pyxFilename (pyBanner ++ String.join referencePyx)
                else fs2
              (fs3, .ok ())

example :
    processFilename
      (fun s => if s = "# B\n\n\n\ny\n\n" then some "OUTF\n" else none) id "B"
      ⟨[("m.ppyx", "#if A\nx\n#else\ny\n#endif\n"), ("m.c", "ORIGINAL")]⟩ "m.ppyx" =
    (⟨[("m.ppyx", "#if A\nx\n#else\ny\n#endif\n"), ("m.c", "OUTF\n"),
        ("m.pyx", "# B\n\nx\n\n\n\n")]⟩,
      .error (.assertFail "command failed")) := by decide

example :
    processFilename (fun s => if s = "# B\nhello\n" then some "CC\n" else none) id "B"
      ⟨[("n.ppyx", "hello\n"), ("n.c", "OLD")]⟩ "n.ppyx" =
    (⟨[("n.ppyx", "hello\n"), ("n.c", "/* B */\nCC\n"), ("n.pyx", "# B\nhello\n")]⟩,
      .ok ()) := by decide

/-- C1: the claim says a non-directive line is dropped whenever ANY enclosing
including-context is false.  The code consults only the innermost entry of
including_section: with configuration A false and B true, the line nested as
an if-B block (true) inside an if-A block (false) is emitted, not dropped,
while the mirror configuration A true, B false does drop it.  This evaluates
the preprocessor at that failing input. -/
theorem C1_innermost_only_nested_line_kept :
    preprocessFilename ["#if A\n", "#if B\n", "x\n", "#endif\n", "#endif\n"]
      (some ⟨[("A", false), ("B", true)]⟩) = .ok [⟨"x\n", 2⟩] ∧
    preprocessFilename ["#if A\n", "#if B\n", "x\n", "#endif\n", "#endif\n"]
      (some ⟨[("A", true), ("B", false)]⟩) = .ok [] := by
  exact ⟨by decide, by decide⟩

/-- C2: the claim says a macro name followed by a word character is never
expanded.  The third group of the invocation regex is written with the
character class excluding only the literal letter w, so FOO followed by the
word character a IS expanded (to bara), while FOO followed by the letter w is
not.  This evaluates the expander at that failing input. -/
theorem C2_follower_class_excludes_only_letter_w :
    expandDefinitions [("FOO", ⟨["bar"], none⟩)] "FOOa" = .ok "bara" ∧
    expandDefinitions [("FOO", ⟨["bar"], none⟩)] "FOOw" = .ok "FOOw" := by
  exact ⟨by decide, by decide⟩

theorem matchNameG3_nil (rest : List Char) : matchNameG3 [] rest = none := rfl

theorem tryMatchHere_nil (b : Bool) (rest : List Char) : tryMatchHere [] b rest = none := by
  unfold tryMatchHere
  simp only [matchNameG3_nil, Option.map_none']
  cases b <;> (split <;> split <;> (try simp) <;> (cases rest <;> simp))

theorem findMatchAux_nil (b : Bool) (seen rest : List Char) :
    findMatchAux [] b seen rest = none := by
  induction rest generalizing b seen with
  | nil => rw [findMatchAux, tryMatchHere_nil]
  | cons c t ih => rw [findMatchAux, tryMatchHere_nil]; exact ih false (c :: seen)

theorem subnWith_nil (exp : Defs → String → Except PErr String) (code : String) :
    subnWith exp [] code = .ok (code, 0) := by
  rw [subnWith]
  have hk : sortedKeys [] = [] := rfl
  rw [hk, findMatchAux_nil]

theorem expandLoopW_ok_fixed (exp : Defs → String → Except PErr String) (defs : Defs) :
    ∀ (n : Nat) (code t : String), expandLoopW exp defs n code = .ok t →
      subnWith exp defs t = .ok (t, 0) := by
  intro n
  induction n with
  | zero => intro code t h; exact absurd h (by simp [expandLoopW])
  | succ n ih =>
    intro code t h
    rw [expandLoopW] at h
    split at h
    · exact absurd h (by simp)
    · rename_i newcode count heq
      split at h
      · rename_i hc
        split at h
        · exact absurd h (by simp)
        · rename_i hcnt
          have ht : newcode = t := Except.ok.inj h
          have hcz : count = 0 := Nat.eq_zero_of_not_pos hcnt
          rw [← ht, ← hc, heq, hcz, hc]
      · exact ih newcode t h

/-- The two mutually recursive single-letter macros used to exhaust the
substitution bound. -/
def defsAB : Defs := [("A", ⟨["B"], none⟩), ("B", ⟨["A"], none⟩)]

theorem subnWith_AB_A : subnWith (expandCore 1) defsAB "A" = .ok ("B", 1) := by decide

theorem subnWith_AB_B : subnWith (expandCore 1) defsAB "B" = .ok ("A", 1) := by decide

theorem expandLoopW_AB (n : Nat) :
    ∀ c : String, c = "A" ∨ c = "B" →
      expandLoopW (expandCore 1) defsAB n c =
        .error (.synErr "Too many substitutions or internal error.") := by
  induction n with
  | zero => intro c _; rfl
  | succ n ih =>
    intro c hc
    have hAB : ("A" : String) ≠ "B" := by decide
    rcases hc with rfl | rfl
    · rw [expandLoopW, subnWith_AB_A]
      simp only [hAB, reduceIte]
      exact ih "B" (Or.inr rfl)
    · rw [expandLoopW, subnWith_AB_B]
      simp only [hAB.symm, reduceIte]
      exact ih "A" (Or.inl rfl)

/-- Unfolding equation for expandDefinitions: the empty-table early return or
the 20000-iteration loop. -/
theorem expandDefinitions_eq (defs : Defs) (code : String) :
    expandDefinitions defs code =
      if defs.isEmpty then .ok code else expandLoopW (expandCore 1) defs 20000 code := rfl

/-- C7: macro expansion performs at most 20000 single-leftmost-replacement
iterations.  First conjunct: whenever expansion returns a text, that text is a
fixed point (one more substitution step reports no replacement and leaves it
unchanged).  Second: a replacement that leaves the text unchanged fails as
infinite recursion (a self-referential macro).  Third: text that still changes
when the 20000-iteration cap is exhausted fails as too many substitutions
(two mutually recursive macros). -/
theorem C7_bounded_substitution_loop :
    (∀ (defs : Defs) (code t : String), expandDefinitions defs code = .ok t →
      subnWith (expandCore 1) defs t = .ok (t, 0)) ∧
    expandDefinitions [("A", ⟨["A"], none⟩)] "A" = .error (.synErr "Infinite recursion") ∧
    expandDefinitions defsAB "A" =
      .error (.synErr "Too many substitutions or internal error.") := by
  refine ⟨?_, by decide, ?_⟩
  · intro defs code t h
    rw [expandDefinitions_eq] at h
    by_cases hd : defs.isEmpty
    · rw [if_pos hd] at h
      have ht : code = t := Except.ok.inj h
      have hnil : defs = [] := List.isEmpty_iff.mp hd
      rw [hnil]
      exact subnWith_nil _ _
    · rw [if_neg hd] at h
      exact expandLoopW_ok_fixed _ _ _ _ _ h
  · rw [expandDefinitions_eq, if_neg (by decide)]
    exact expandLoopW_AB 20000 "A" (Or.inl rfl)

/-- Witness for the first conjunct of the C7 theorem at a concrete input. -/
theorem C7_bounded_substitution_loop_witness :
    subnWith (expandCore 1) [("FOO", ⟨["bar"], none⟩)] "bara" = .ok ("bara", 0) :=
  C7_bounded_substitution_loop.1 [("FOO", ⟨["bar"], none⟩)] "FOOa" "bara" (by decide)

theorem getCondStep_ordinary (st : GCState) (l : String) (h : matchCondition l = none) :
    getCondStep st l = .ok { st with conditions :=
      if st.stack ∈ st.conditions then st.conditions else st.conditions ++ [st.stack] } := by
  simp only [getCondStep, h]

/-- C5: a source with two independent, non-nested conditions X and Y, each in
its own if/else/endif block with a non-directive line in every branch,
enumerates exactly the four complete configurations over X and Y; they are
pairwise distinct, none is impossible, and each assigns a polarity to both
names. -/
theorem C5_two_conditions_four_configurations (a b c d : String)
    (ha : matchCondition a = none) (hb : matchCondition b = none)
    (hc : matchCondition c = none) (hd : matchCondition d = none) :
    getConfigurations
        ["#if X\n", a, "#else\n", b, "#endif\n", "#if Y\n", c, "#else\n", d, "#endif\n"] =
      .ok [[("X", false), ("Y", false)], [("X", false), ("Y", true)],
        [("X", true), ("Y", false)], [("X", true), ("Y", true)]] ∧
    ([[("X", false), ("Y", false)], [("X", false), ("Y", true)],
        [("X", true), ("Y", false)],
        [("X", true), ("Y", true)]].Pairwise (fun u v => u ≠ v) ∧
      ∀ cfg ∈ [[("X", false), ("Y", false)], [("X", false), ("Y", true)],
        [("X", true), ("Y", false)], [("X", true), ("Y", true)]],
        isImpossible cfg = false ∧ (∃ p, ("X", p) ∈ cfg) ∧ ∃ q, ("Y", q) ∈ cfg) := by
  have e1 : getCondStep ⟨[], []⟩ "#if X\n" = .ok ⟨[], [("X", true)]⟩ := by decide
  have e2 : getCondStep ⟨[], [("X", true)]⟩ a = .ok ⟨[[("X", true)]], [("X", true)]⟩ := by
    rw [getCondStep_ordinary _ _ ha]; decide
  have e3 : getCondStep ⟨[[("X", true)]], [("X", true)]⟩ "#else\n" =
      .ok ⟨[[("X", true)]], [("X", false)]⟩ := by decide
  have e4 : getCondStep ⟨[[("X", true)]], [("X", false)]⟩ b =
      .ok ⟨[[("X", true)], [("X", false)]], [("X", false)]⟩ := by
    rw [getCondStep_ordinary _ _ hb]; decide
  have e5 : getCondStep ⟨[[("X", true)], [("X", false)]], [("X", false)]⟩ "#endif\n" =
      .ok ⟨[[("X", true)], [("X", false)]], []⟩ := by decide
  have e6 : getCondStep ⟨[[("X", true)], [("X", false)]], []⟩ "#if Y\n" =
      .ok ⟨[[("X", true)], [("X", false)]], [("Y", true)]⟩ := by decide
  have e7 : getCondStep ⟨[[("X", true)], [("X", false)]], [("Y", true)]⟩ c =
      .ok ⟨[[("X", true)], [("X", false)], [("Y", true)]], [("Y", true)]⟩ := by
    rw [getCondStep_ordinary _ _ hc]; decide
  have e8 : getCondStep ⟨[[("X", true)], [("X", false)], [("Y", true)]], [("Y", true)]⟩
      "#else\n" = .ok ⟨[[("X", true)], [("X", false)], [("Y", true)]], [("Y", false)]⟩ := by
    decide
  have e9 : getCondStep ⟨[[("X", true)], [("X", false)], [("Y", true)]], [("Y", false)]⟩ d =
      .ok ⟨[[("X", true)], [("X", false)], [("Y", true)], [("Y", false)]], [("Y", false)]⟩ := by
    rw [getCondStep_ordinary _ _ hd]; decide
  have e10 : getCondStep
      ⟨[[("X", true)], [("X", false)], [("Y", true)], [("Y", false)]], [("Y", false)]⟩
      "#endif\n" =
      .ok ⟨[[("X", true)], [("X", false)], [("Y", true)], [("Y", false)]], []⟩ := by decide
  have hcond : getConditions
      ["#if X\n", a, "#else\n", b, "#endif\n", "#if Y\n", c, "#else\n", d, "#endif\n"] =
      .ok [[("X", true)], [("X", false)], [("Y", true)], [("Y", false)]] := by
    rw [getConditions]
    simp only [getCondAux, e1, e2, e3, e4, e5, e6, e7, e8, e9, e10, Except.map]
  refine ⟨?_, by decide⟩
  rw [getConfigurations, hcond]
  decide

/-- Witness for the C5 theorem at concrete branch lines. -/
theorem C5_two_conditions_four_configurations_witness :
    getConfigurations
        ["#if X\n", "a\n", "#else\n", "b\n", "#endif\n", "#if Y\n", "c\n", "#else\n", "d\n",
          "#endif\n"] =
      .ok [[("X", false), ("Y", false)], [("X", false), ("Y", true)],
        [("X", true), ("Y", false)], [("X", true), ("Y", true)]] ∧
    ([[("X", false), ("Y", false)], [("X", false), ("Y", true)],
        [("X", true), ("Y", false)],
        [("X", true), ("Y", true)]].Pairwise (fun u v => u ≠ v) ∧
      ∀ cfg ∈ [[("X", false), ("Y", false)], [("X", false), ("Y", true)],
        [("X", true), ("Y", false)], [("X", true), ("Y", true)]],
        isImpossible cfg = false ∧ (∃ p, ("X", p) ∈ cfg) ∧ ∃ q, ("Y", q) ∈ cfg) :=
  C5_two_conditions_four_configurations "a\n" "b\n" "c\n" "d\n"
    (by decide) (by decide) (by decide) (by decide)

theorem strExt (s t : String) (h : s.data = t.data) : s = t := by
  cases s; cases t; exact congrArg String.mk (by simpa using h)

theorem strAppend_data (s t : String) : (s ++ t).data = s.data ++ t.data := rfl

theorem exactReverse_self (k : TagList) : exactReverse k k = false := by
  rcases k with _ | ⟨t, rest⟩
  · rfl
  · rcases rest with _ | ⟨t2, rest2⟩
    · rcases t with _ | ⟨c, tt⟩
      · rfl
      · rcases tt with _ | ⟨c2, t3⟩
        · rcases c with ⟨nm, b⟩
          simp only [exactReverse]
          cases b <;> simp [sortTwoBools]
        · rfl
    · rfl

theorem ifLine_single (C : String) : ifLine [[(C, true)]] = "#if (" ++ C ++ ")\n" := by
  apply strExt
  simp only [ifLine, formatTags, formatTag, formatCond, sortBy, insertSortedBy, joinSep,
    List.map, List.foldr, strAppend_data, List.append_assoc]
  rfl

theorem elseLine_single (C : String) : elseLine [[(C, true)]] = "#else /* (" ++ C ++ ") */\n" := by
  apply strExt
  simp only [elseLine, formatTags, formatTag, formatCond, sortBy, insertSortedBy, joinSep,
    List.map, List.foldr, strAppend_data, List.append_assoc]
  rfl

theorem endifLine_single_neg (C : String) :
    endifLine [[(C, false)]] = "#endif /* (!" ++ C ++ ") */\n" := by
  apply strExt
  simp only [endifLine, formatTags, formatTag, formatCond, sortBy, insertSortedBy, joinSep,
    List.map, List.foldr, strAppend_data, List.append_assoc]
  rfl

/-- C6: walking merged lines whose TagLists alternate between the
single-condition tag (C, true) and its complement (C, false) emits an if C,
else, endif structure and never an endif immediately followed by an if; in
general, whenever the new TagList is the exact single-condition polarity
complement of the currently open one, the transition is emitted as an else
directive. -/
theorem C6_exact_complement_emits_else :
    (∀ (C t1 t2 : String),
      producePre [⟨t1, [[(C, true)]]⟩, ⟨t2, [[(C, false)]]⟩] =
        ["#if (" ++ C ++ ")\n", t1, "#else /* (" ++ C ++ ") */\n", t2,
          "#endif /* (!" ++ C ++ ") */\n"]) ∧
    (∀ (state key : TagList) (l : TaggedLine) (rest : List TaggedLine),
      l.tags = key → exactReverse key state = true →
      produceAux state (l :: rest) = elseLine state :: l.text :: produceAux key rest) := by
  constructor
  · intro C t1 t2
    have hrev1 : exactReverse [[(C, true)]] ([] : TagList) = false := rfl
    have hrev2 : exactReverse [[(C, false)]] [[(C, true)]] = true := by
      simp [exactReverse, sortTwoBools]
    simp only [producePre, produceAux, hrev1, hrev2]
    simp [ifLine_single, elseLine_single, endifLine_single_neg]
  · intro state key l rest htags hrev
    have hne : key ≠ state := by
      intro he
      rw [he, exactReverse_self] at hrev
      exact Bool.noConfusion hrev
    simp only [produceAux]
    rw [htags, if_neg hne, if_pos hrev]

/-- Witness for the C6 theorem at a concrete condition name and lines. -/
theorem C6_exact_complement_emits_else_witness :
    producePre [⟨"a\n", [[("F", true)]]⟩, ⟨"b\n", [[("F", false)]]⟩] =
      ["#if (F)\n", "a\n", "#else /* (F) */\n", "b\n", "#endif /* (!F) */\n"] ∧
    produceAux [[("F", true)]] [⟨"b\n", [[("F", false)]]⟩] =
      elseLine [[("F", true)]] :: "b\n" :: produceAux [[("F", false)]] [] := by
  constructor
  · exact C6_exact_complement_emits_else.1 "F" "a\n" "b\n"
  · exact C6_exact_complement_emits_else.2 [[("F", true)]] [[("F", false)]]
      ⟨"b\n", [[("F", false)]]⟩ [] rfl (by decide)

theorem splitNLAux_no_nl (cs : List Char) (h : ∀ c ∈ cs, c ≠ '\n') : splitNLAux cs = [cs] := by
  induction cs with
  | nil => rfl
  | cons c t ih =>
    have hc : c ≠ '\n' := h c (List.mem_cons_self _ _)
    have ht := ih fun x hx => h x (List.mem_cons_of_mem _ hx)
    simp only [splitNLAux, ht, hc, if_false, reduceIte]

theorem splitNLAux_one_nl (cs : List Char) (h : ∀ c ∈ cs, c ≠ '\n') :
    splitNLAux (cs ++ ['\n']) = [cs, []] := by
  induction cs with
  | nil => rfl
  | cons c t ih =>
    have hc : c ≠ '\n' := h c (List.mem_cons_self _ _)
    have ht := ih fun x hx => h x (List.mem_cons_of_mem _ hx)
    simp only [List.cons_append, splitNLAux, List.append_eq, ht, hc, if_false, reduceIte]

theorem strNeEmpty (l : String) (h : l ≠ "") : l.data ≠ [] := by
  intro hd
  exact h (strExt l "" hd)

/-- The expected shape of one reference-mode output line: hash lines verbatim,
other lines with a newline appended when missing. -/
def normalizeRefLine (l : String) : String :=
  if startsWithChar (pyStrip l) '#' = true then l
  else if endsWithChar l '\n' = true then l else l ++ "\n"

/-- The expected reference-mode output from a given starting line index. -/
def refExpected (idx : Nat) : List String → List PLine
  | [] => []
  | l :: ls => ⟨normalizeRefLine l, idx⟩ :: refExpected (idx + 1) ls

theorem splitExpansion_wf (l : String) (idx : Nat) (hne : l ≠ "")
    (hwf : ∀ c ∈ l.data.dropLast, c ≠ '\n') :
    splitExpansion l idx =
      [⟨if endsWithChar l '\n' = true then l else l ++ "\n", idx⟩] := by
  have hdne : l.data ≠ [] := strNeEmpty l hne
  by_cases he : endsWithChar l '\n' = true
  · have hlast : l.data.getLast hdne = '\n' := by
      have := he
      rw [endsWithChar, List.getLast?_eq_getLast _ hdne] at this
      exact Option.some.inj (of_decide_eq_true this)
    have hsplit : l.data = l.data.dropLast ++ ['\n'] := by
      conv_lhs => rw [← List.dropLast_concat_getLast hdne]
      rw [hlast]
    rw [if_pos he]
    simp only [splitExpansion, splitNL]
    rw [show splitNLAux l.data = [l.data.dropLast, []] from by
      conv_lhs => rw [hsplit]
      exact splitNLAux_one_nl _ hwf]
    simp only [List.map, List.getLast?]
    have : ((⟨l.data.dropLast⟩ : String) ++ "\n") = l := by
      apply strExt
      rw [strAppend_data]
      exact hsplit.symm
    simp [this]
  · have hnl : ∀ c ∈ l.data, c ≠ '\n' := by
      intro c hcmem
      rw [← List.dropLast_concat_getLast hdne] at hcmem
      rcases List.mem_append.mp hcmem with hmem | hmem
      · exact hwf c hmem
      · have hcl : c = l.data.getLast hdne := by simpa using hmem
        intro hcn
        apply he
        rw [endsWithChar, List.getLast?_eq_getLast _ hdne, ← hcl, hcn]
        exact decide_eq_true rfl
    rw [if_neg he]
    simp only [splitExpansion, splitNL, splitNLAux_no_nl l.data hnl]
    have hstr : (⟨l.data⟩ : String) = l := strExt _ _ rfl
    simp only [List.map, hstr, List.getLast?]
    have hne2 : l ≠ "" := hne
    simp [hne2]

theorem preprocessStep_ref_hash (idx : Nat) (st : PState) (line : String)
    (hcur : st.currentName = none) (hinc : st.includingSection = [])
    (hdef : defineMatch (pyStrip line) = none)
    (hhash : startsWithChar (pyStrip line) '#' = true) :
    preprocessStep none idx st line = .ok { st with result := st.result ++ [⟨line, idx⟩] } := by
  have hdef2 : defineMatch (pyLstrip (pyRstrip line)) = none := hdef
  have hhash2 : startsWithChar (pyLstrip (pyRstrip line)) '#' = true := hhash
  simp only [preprocessStep, hcur, hinc, hdef2, hhash2, List.head?_nil, reduceIte]
  simp

theorem preprocessStep_ref_plain (idx : Nat) (st : PState) (line : String)
    (hcur : st.currentName = none) (hinc : st.includingSection = [])
    (hdefs : st.definitions = [])
    (hdef : defineMatch (pyStrip line) = none)
    (hhash : startsWithChar (pyStrip line) '#' = false) :
    preprocessStep none idx st line =
      .ok { st with result := st.result ++ splitExpansion line idx } := by
  have hdef2 : defineMatch (pyLstrip (pyRstrip line)) = none := hdef
  have hhash2 : startsWithChar (pyLstrip (pyRstrip line)) '#' = false := hhash
  have hexp : expandDefinitions st.definitions line = .ok line := by
    rw [hdefs, expandDefinitions_eq]
    rfl
  simp only [preprocessStep, hcur, hinc, hdef2, hhash2, hexp, List.head?_nil, reduceIte]
  simp

theorem preprocessAux_ref (lines : List String) :
    ∀ (idx : Nat) (st : PState), st.currentName = none → st.definitions = [] →
      st.includingSection = [] →
      (∀ l ∈ lines, l ≠ "" ∧ ∀ c ∈ l.data.dropLast, c ≠ '\n') →
      (∀ l ∈ lines, defineMatch (pyStrip l) = none) →
      preprocessAux none idx st lines = .ok { st with result := st.result ++ refExpected idx lines } := by
  induction lines with
  | nil =>
    intro idx st hcur hdefs hinc _ _
    simp [preprocessAux, refExpected]
  | cons l ls ih =>
    intro idx st hcur hdefs hinc hwf hnodef
    have hwl := hwf l (List.mem_cons_self _ _)
    have hdl := hnodef l (List.mem_cons_self _ _)
    have hwls := fun x hx => hwf x (List.mem_cons_of_mem _ hx)
    have hdls := fun x hx => hnodef x (List.mem_cons_of_mem _ hx)
    by_cases hh : startsWithChar (pyStrip l) '#' = true
    · have hstep := preprocessStep_ref_hash idx st l hcur hinc hdl hh
      simp only [preprocessAux, hstep]
      rw [ih (idx + 1) ⟨st.currentName, st.definitions, st.includingSection,
        st.result ++ [PLine.mk l idx]⟩ hcur hdefs hinc hwls hdls]
      simp [refExpected, normalizeRefLine, hh, List.append_assoc]
    · have hh2 : startsWithChar (pyStrip l) '#' = false := by
        simpa using hh
      have hstep := preprocessStep_ref_plain idx st l hcur hinc hdefs hdl hh2
      rw [splitExpansion_wf l idx hwl.1 hwl.2] at hstep
      simp only [preprocessAux, hstep]
      rw [ih (idx + 1) ⟨st.currentName, st.definitions, st.includingSection,
        st.result ++ [PLine.mk (if endsWithChar l '\n' = true then l else l ++ "\n") idx]⟩
        hcur hdefs hinc hwls hdls]
      simp [refExpected, normalizeRefLine, hh2, List.append_assoc]

/-- C8: preprocessing input with no macro definitions in reference mode (no
configuration) returns the input lines unchanged up to trailing-newline
normalization: hash-prefixed lines (including any conditional directives)
verbatim, every other line with a newline appended when it lacked one, each
tagged with its zero-based source line number. -/
theorem C8_reference_mode_roundtrip (lines : List String)
    (hwf : ∀ l ∈ lines, l ≠ "" ∧ ∀ c ∈ l.data.dropLast, c ≠ '\n')
    (hnodef : ∀ l ∈ lines, defineMatch (pyStrip l) = none) :
    preprocessFilename lines none = .ok (refExpected 0 lines) ∧
    ((∀ l ∈ lines, endsWithChar l '\n' = true) →
      (refExpected 0 lines).map (fun p => p.text) = lines) := by
  constructor
  · rw [preprocessFilename, preprocessAux_ref lines 0 initPState rfl rfl rfl hwf hnodef]
    simp [initPState, Except.map]
  · intro hnl
    have key : ∀ (ls : List String) (idx : Nat), (∀ l ∈ ls, endsWithChar l '\n' = true) →
        (refExpected idx ls).map (fun p => p.text) = ls := by
      intro ls
      induction ls with
      | nil => intro idx _; rfl
      | cons x xs ih2 =>
        intro idx h
        have hx := h x (List.mem_cons_self _ _)
        simp only [refExpected, List.map, ih2 (idx + 1) fun y hy => h y (List.mem_cons_of_mem _ hy)]
        simp [normalizeRefLine, hx]
    exact key lines 0 hnl

/-- Witness for the C8 theorem at a concrete two-line input. -/
theorem C8_reference_mode_roundtrip_witness :
    preprocessFilename ["hello\n", "world"] none = .ok (refExpected 0 ["hello\n", "world"]) ∧
    ((∀ l ∈ ["hello\n", "world"], endsWithChar l '\n' = true) →
      (refExpected 0 ["hello\n", "world"]).map (fun p => p.text) = ["hello\n", "world"]) :=
  C8_reference_mode_roundtrip ["hello\n", "world"] (by decide) (by decide)

theorem pyRstrip_endsWithColon (u : String) (hc : endsWithChar u ':' = true) :
    pyRstrip u = u := by
  have hlast : u.data.getLast? = some ':' := of_decide_eq_true hc
  have hrev : u.data.reverse.head? = some ':' := by rw [List.head?_reverse]; exact hlast
  apply strExt
  rcases hrevd : u.data.reverse with _ | ⟨h0, t⟩
  · rw [hrevd] at hrev; exact absurd hrev (by simp)
  · have hh0 : h0 = ':' := by rw [hrevd] at hrev; simpa using hrev
    have : (u.data.reverse.dropWhile pyIsSpace) = u.data.reverse := by
      rw [hrevd, List.dropWhile_cons, hh0]
      simp [pyIsSpace]
    rw [pyRstrip]
    simp only [this, List.reverse_reverse]

theorem endsWithColon_pyStrip (u : String) (hc : endsWithChar u ':' = true) :
    endsWithChar (pyStrip u) ':' = true := by
  have hlast : u.data.getLast? = some ':' := of_decide_eq_true hc
  have hdne : u.data ≠ [] := by intro h; rw [h] at hlast; exact absurd hlast (by simp)
  rw [pyStrip, pyRstrip_endsWithColon u hc]
  have hmem : (':' : Char) ∈ u.data := by
    rw [List.getLast?_eq_getLast _ hdne] at hlast
    rw [← Option.some.inj hlast]
    exact List.getLast_mem hdne
  have hne : u.data.dropWhile pyIsSpace ≠ [] := by
    intro h
    have := (List.dropWhile_eq_nil_iff).mp h ':' hmem
    exact absurd this (by simp [pyIsSpace])
  obtain ⟨t, ht⟩ := List.dropWhile_suffix (l := u.data) pyIsSpace
  have hl2 : (u.data.dropWhile pyIsSpace).getLast? = some ':' := by
    rw [← ht] at hlast
    rw [List.getLast?_append] at hlast
    rw [List.getLast?_eq_getLast _ hne] at hlast ⊢
    simpa using hlast
  exact decide_eq_true hl2

/-- C9: a line whose stripped form ends with a colon is never recognized as a
conditional directive: match_condition returns none, the condition extractor
records the current stack as for any ordinary line, and the preprocessor (with
a configuration, inside an including context) passes a hash-prefixed such line
through verbatim. -/
theorem C9_colon_guard (line : String) (h : endsWithChar (pyStrip line) ':' = true) :
    matchCondition line = none ∧
    (∀ st : GCState, getCondStep st line =
      .ok { st with conditions :=
        if st.stack ∈ st.conditions then st.conditions else st.conditions ++ [st.stack] }) ∧
    (∀ (cfg : PConfig) (idx : Nat) (st : PState),
      st.currentName = none →
      defineMatch (pyStrip line) = none →
      st.includingSection = [] →
      startsWithChar (pyStrip line) '#' = true →
      preprocessStep (some cfg) idx st line =
        .ok { st with result := st.result ++ [⟨line, idx⟩] }) := by
  have h1 : matchCondition line = none := by simp only [matchCondition, h, reduceIte]
  have hmc : matchCondition (pyStrip line) = none := by
    simp only [matchCondition, endsWithColon_pyStrip (pyStrip line) h, reduceIte]
  refine ⟨h1, fun st => getCondStep_ordinary st line h1, ?_⟩
  intro cfg idx st hcur hdef hinc hhash
  have hdef2 : defineMatch (pyLstrip (pyRstrip line)) = none := hdef
  have hmc2 : matchCondition (pyLstrip (pyRstrip line)) = none := hmc
  have hhash2 : startsWithChar (pyLstrip (pyRstrip line)) '#' = true := hhash
  simp only [preprocessStep, hcur, hinc, hdef2, hmc2, hhash2, List.head?_nil, reduceIte]
  simp

/-- Witness for the C9 theorem at a concrete colon-terminated directive-like
line. -/
theorem C9_colon_guard_witness :
    matchCondition "#if x:\n" = none ∧
    getCondStep ⟨[], [("A", true)]⟩ "#if x:\n" = .ok ⟨[[("A", true)]], [("A", true)]⟩ ∧
    preprocessStep (some ⟨[("A", true)]⟩) 3 initPState "#if x:\n" =
      .ok { initPState with result := [⟨"#if x:\n", 3⟩] } := by
  obtain ⟨h1, h2, h3⟩ := C9_colon_guard "#if x:\n" (by decide)
  refine ⟨h1, ?_, ?_⟩
  · rw [h2 ⟨[], [("A", true)]⟩]; decide
  · rw [h3 ⟨[("A", true)]⟩ 3 initPState rfl (by decide) rfl (by decide)]; rfl

theorem dropWhileIdem (p : α → Bool) (l : List α) :
    (l.dropWhile p).dropWhile p = l.dropWhile p := by
  rw [List.dropWhile_eq_self_iff]
  intro hl
  exact List.dropWhile_get_zero_not (p := p) l hl

theorem pyLstrip_idem (s : String) : pyLstrip (pyLstrip s) = pyLstrip s := by
  apply strExt
  simp [pyLstrip, dropWhileIdem]

theorem pyRstrip_idem (s : String) : pyRstrip (pyRstrip s) = pyRstrip s := by
  apply strExt
  simp [pyRstrip, List.reverse_reverse, dropWhileIdem]

theorem pyRstrip_pyLstrip (s : String) (h : pyRstrip s = s) :
    pyRstrip (pyLstrip s) = pyLstrip s := by
  apply strExt
  have hrev : s.data.reverse.dropWhile pyIsSpace = s.data.reverse := by
    have hd : (s.data.reverse.dropWhile pyIsSpace).reverse = s.data := congrArg String.data h
    rw [← hd, List.reverse_reverse]
    exact dropWhileIdem _ _
  have key : ∀ x : List Char, x <+: s.data.reverse → x.dropWhile pyIsSpace = x := by
    intro x hpre
    rcases x with _ | ⟨c, t⟩
    · rfl
    · obtain ⟨r, hr⟩ := hpre
      have hc : pyIsSpace c = false := by
        have h0 : s.data.reverse = c :: (t ++ r) := by rw [← hr]; simp
        rw [h0] at hrev
        by_contra hcc
        have hcc2 : pyIsSpace c = true := by simpa using hcc
        rw [List.dropWhile_cons, hcc2] at hrev
        simp only [if_true, reduceIte] at hrev
        have hle : ((t ++ r).dropWhile pyIsSpace).length ≤ (t ++ r).length :=
          (List.dropWhile_suffix pyIsSpace).sublist.length_le
        rw [hrev] at hle
        simp only [List.length_cons] at hle
        omega
      rw [List.dropWhile_cons, hc]
      simp
  have hx : (s.data.dropWhile pyIsSpace).reverse <+: s.data.reverse :=
    List.reverse_prefix.mpr (List.dropWhile_suffix _)
  have hmain := key ((s.data.dropWhile pyIsSpace).reverse) hx
  simp only [pyRstrip, pyLstrip]
  rw [hmain, List.reverse_reverse]

theorem pyStrip_idem (s : String) : pyStrip (pyStrip s) = pyStrip s := by
  have h2 : pyRstrip (pyLstrip (pyRstrip s)) = pyLstrip (pyRstrip s) :=
    pyRstrip_pyLstrip _ (pyRstrip_idem s)
  show pyLstrip (pyRstrip (pyLstrip (pyRstrip s))) = pyLstrip (pyRstrip s)
  rw [h2]
  exact pyLstrip_idem _

theorem conditionRe_starts (s g : String) (h : conditionRe s = some g) :
    startsWithChar s '#' = true := by
  unfold conditionRe at h
  rcases hd : s.data with _ | ⟨c, rest⟩
  · rw [hd] at h; exact absurd h (by simp)
  · rw [hd] at h
    rw [startsWithChar, hd]
    split at h
    · rename_i heq
      obtain ⟨hc, -⟩ := List.cons.inj heq
      rw [hc]
      simp
    · exact absurd h (by simp)

theorem matchCondition_starts_hash (line g : String)
    (hm : matchCondition (pyStrip line) = some g) :
    startsWithChar (pyStrip line) '#' = true := by
  rw [matchCondition] at hm
  split at hm
  · exact absurd hm (by simp)
  · have := conditionRe_starts _ _ hm
    rwa [pyStrip_idem] at this

/-- C10: in reference mode (no configuration), a define line is consumed and
registered into the macro table producing no output line; a conditional
directive line is passed through verbatim, unresolved; and any other
non-hash line is run through the macro expander with the current definitions
before being emitted. -/
theorem C10_reference_mode_behavior :
    (∀ (idx : Nat) (st : PState) (line name value : String),
      st.currentName = none → st.includingSection = [] →
      defineMatch (pyStrip line) = some (name, none, value) →
      endsWithChar (pyStrip value) '\\' = false →
      preprocessStep none idx st line =
        .ok { st with definitions := defsInsert st.definitions name ⟨[pyStrip value], none⟩ }) ∧
    (∀ (idx : Nat) (st : PState) (line g : String),
      st.currentName = none → st.includingSection = [] →
      defineMatch (pyStrip line) = none →
      matchCondition (pyStrip line) = some g →
      preprocessStep none idx st line = .ok { st with result := st.result ++ [⟨line, idx⟩] }) ∧
    (∀ (idx : Nat) (st : PState) (line : String),
      st.currentName = none → st.includingSection = [] →
      defineMatch (pyStrip line) = none →
      startsWithChar (pyStrip line) '#' = false →
      preprocessStep none idx st line =
        match expandDefinitions st.definitions line with
        | .error e => .error e
        | .ok ex => .ok { st with result := st.result ++ splitExpansion ex idx }) := by
  refine ⟨?_, ?_, ?_⟩
  · intro idx st line name value hcur hinc hdef hnb
    have hdef2 : defineMatch (pyLstrip (pyRstrip line)) = some (name, none, value) := hdef
    have hnb2 : endsWithChar (pyStrip value) '\\' = false := hnb
    simp only [preprocessStep, hcur, hinc, hdef2]
    simp [hnb2]
  · intro idx st line g hcur hinc hdef hm
    have hh := matchCondition_starts_hash line g hm
    have hdef2 : defineMatch (pyLstrip (pyRstrip line)) = none := hdef
    have hm2 : matchCondition (pyLstrip (pyRstrip line)) = some g := hm
    have hh2 : startsWithChar (pyLstrip (pyRstrip line)) '#' = true := hh
    simp only [preprocessStep, hcur, hinc, hdef2, hm2, hh2, List.head?_nil, reduceIte]
    simp
  · intro idx st line hcur hinc hdef hh
    have hdef2 : defineMatch (pyLstrip (pyRstrip line)) = none := hdef
    have hh2 : startsWithChar (pyLstrip (pyRstrip line)) '#' = false := hh
    simp only [preprocessStep]
    simp [hcur, hinc, hdef2, hh2]

/-- Witness for the C10 theorem at concrete lines and states. -/
theorem C10_reference_mode_behavior_witness :
    preprocessStep none 0 initPState "#define X world\n" =
      .ok { initPState with definitions := defsInsert [] "X" ⟨["world"], none⟩ } ∧
    preprocessStep none 1 initPState "#if A\n" =
      .ok { initPState with result := [⟨"#if A\n", 1⟩] } ∧
    preprocessStep none 2 ⟨none, [("X", ⟨["world"], none⟩)], [], []⟩ "X\n" =
      .ok ⟨none, [("X", ⟨["world"], none⟩)], [], [⟨"world\n", 2⟩]⟩ := by
  obtain ⟨h1, h2, h3⟩ := C10_reference_mode_behavior
  refine ⟨?_, ?_, ?_⟩
  · rw [h1 0 initPState "#define X world\n" "X" "world" rfl rfl (by decide) (by decide)]
    rfl
  · rw [h2 1 initPState "#if A\n" "if A" rfl rfl (by decide) (by decide)]
    rfl
  · rw [h3 2 ⟨none, [("X", ⟨["world"], none⟩)], [], []⟩ "X\n" rfl rfl (by decide) (by decide)]
    decide

theorem eraseFirst_subset [DecidableEq α] (l : List α) (x y : α) (h : y ∈ eraseFirst l x) :
    y ∈ l := by
  induction l with
  | nil => simp [eraseFirst] at h
  | cons a t ih =>
    rw [eraseFirst] at h
    by_cases hax : a = x
    · rw [if_pos hax] at h
      exact List.mem_cons_of_mem _ h
    · rw [if_neg hax] at h
      rcases List.mem_cons.mp h with rfl | hm
      · exact List.mem_cons_self _ _
      · exact List.mem_cons_of_mem _ (ih hm)

theorem denote_of_mem (v : String → Bool) (tags : TagList) (x : Tag) (hx : x ∈ tags)
    (he : evalTag v x = true) : denoteTags v tags = true := by
  rw [denoteTags, if_neg (by intro h; rw [h] at hx; simp at hx)]
  exact List.any_eq_true.mpr ⟨x, hx, he⟩

theorem denote_exists (v : String → Bool) (l : TagList) (hne : l ≠ [])
    (h : denoteTags v l = true) : ∃ x ∈ l, evalTag v x = true := by
  rw [denoteTags, if_neg hne] at h
  exact List.any_eq_true.mp h

theorem evalTag_erase (v : String → Bool) (t : Tag) (item : Cond) (h : item ∈ t) :
    evalTag v t = ((v item.1 == item.2) && evalTag v (eraseFirst t item)) := by
  induction t with
  | nil => simp at h
  | cons a u ih =>
    rw [eraseFirst]
    by_cases ha : a = item
    · rw [if_pos ha, ha]
      simp [evalTag, List.all_cons]
    · rw [if_neg ha]
      have hmem : item ∈ u := by
        rcases List.mem_cons.mp h with h1 | h1
        · exact absurd h1.symm ha
        · exact h1
      simp only [evalTag, List.all_cons] at ih ⊢
      rw [ih hmem]
      rw [← Bool.and_assoc, ← Bool.and_assoc, Bool.and_comm (v a.1 == a.2)]

theorem findAbsorbAux_spec (t1 t2 : Tag) :
    ∀ (l : List Cond) (c : Tag), findAbsorbAux t1 t2 l = some c →
      ∃ item ∈ l, revertedCond item ∈ t2 ∧ eraseFirst t1 item = c ∧
        eraseFirst t2 (revertedCond item) = c := by
  intro l
  induction l with
  | nil => intro c h; simp [findAbsorbAux] at h
  | cons item rest ih =>
    intro c h
    rw [findAbsorbAux] at h
    by_cases hrev : revertedCond item ∈ t2
    · rw [if_pos hrev] at h
      by_cases heq : eraseFirst t1 item = eraseFirst t2 (revertedCond item)
      · rw [if_pos heq] at h
        have hc : eraseFirst t1 item = c := Option.some.inj h
        exact ⟨item, List.mem_cons_self _ _, hrev, hc, by rw [← heq]; exact hc⟩
      · rw [if_neg heq] at h
        obtain ⟨it, hmem, hrest⟩ := ih c h
        exact ⟨it, List.mem_cons_of_mem _ hmem, hrest⟩
    · rw [if_neg hrev] at h
      obtain ⟨it, hmem, hrest⟩ := ih c h
      exact ⟨it, List.mem_cons_of_mem _ hmem, hrest⟩

theorem pairAct_dup (t1 t2 t : Tag) (h : pairAct t1 t2 = some (.dup t)) : t = t1 ∧ t1 = t2 := by
  rw [pairAct] at h
  by_cases he : t1 = t2
  · rw [if_pos he] at h
    exact ⟨(SimpAct.dup.inj (Option.some.inj h)).symm, he⟩
  · rw [if_neg he] at h
    split at h
    · exact absurd (Option.some.inj h) (by simp)
    · exact absurd h (by simp)

theorem pairAct_absorb (t1 t2 a b c : Tag) (h : pairAct t1 t2 = some (.absorb a b c)) :
    a = t1 ∧ b = t2 ∧ ∃ item ∈ t1, revertedCond item ∈ t2 ∧ eraseFirst t1 item = c ∧
      eraseFirst t2 (revertedCond item) = c := by
  rw [pairAct] at h
  by_cases he : t1 = t2
  · rw [if_pos he] at h
    exact absurd (Option.some.inj h) (by simp)
  · rw [if_neg he] at h
    split at h
    · rename_i c2 heq
      obtain ⟨h1, h2, h3⟩ := SimpAct.absorb.inj (Option.some.inj h)
      obtain ⟨it, hmem, hrev, he1, he2⟩ := findAbsorbAux_spec t1 t2 t1 c2 heq
      exact ⟨h1.symm, h2.symm, it, hmem, hrev, by rw [← h3]; exact he1, by rw [← h3]; exact he2⟩
    · exact absurd h (by simp)

theorem findPairsAux_dup (t1 : Tag) (rest : List Tag) (t : Tag)
    (h : findPairsAux t1 rest = some (.dup t)) : t = t1 ∧ t1 ∈ rest := by
  induction rest with
  | nil => simp [findPairsAux] at h
  | cons t2 rs ih =>
    rw [findPairsAux] at h
    split at h
    · rename_i a heq
      rw [Option.some.inj h] at heq
      obtain ⟨h1, h2⟩ := pairAct_dup t1 t2 t heq
      exact ⟨h1, by rw [← h2]; exact List.mem_cons_self _ _⟩
    · obtain ⟨h1, h2⟩ := ih h
      exact ⟨h1, List.mem_cons_of_mem _ h2⟩

theorem findPairsAux_absorb (t1 : Tag) (rest : List Tag) (a b c : Tag)
    (h : findPairsAux t1 rest = some (.absorb a b c)) :
    a = t1 ∧ b ∈ rest ∧ ∃ item ∈ t1, revertedCond item ∈ b ∧ eraseFirst t1 item = c ∧
      eraseFirst b (revertedCond item) = c := by
  induction rest with
  | nil => simp [findPairsAux] at h
  | cons t2 rs ih =>
    rw [findPairsAux] at h
    split at h
    · rename_i act heq
      rw [Option.some.inj h] at heq
      obtain ⟨h1, h2, hrest⟩ := pairAct_absorb t1 t2 a b c heq
      rw [← h2] at hrest
      exact ⟨h1, by rw [h2]; exact List.mem_cons_self _ _, hrest⟩
    · obtain ⟨h1, h2, hrest⟩ := ih h
      exact ⟨h1, List.mem_cons_of_mem _ h2, hrest⟩

theorem findPairs_dup (tags : TagList) (t : Tag) (h : findPairs tags = some (.dup t)) :
    t ∈ tags ∧ t ∈ eraseFirst tags t := by
  induction tags with
  | nil => simp [findPairs] at h
  | cons x rs ih =>
    rw [findPairs] at h
    split at h
    · rename_i act heq
      rw [Option.some.inj h] at heq
      obtain ⟨h1, h2⟩ := findPairsAux_dup x rs t heq
      rw [eraseFirst, if_pos h1.symm]
      exact ⟨by rw [h1]; exact List.mem_cons_self _ _, by rw [h1]; exact h2⟩
    · obtain ⟨h1, h2⟩ := ih h
      rw [eraseFirst]
      by_cases hx : x = t
      · rw [if_pos hx]
        exact ⟨List.mem_cons_of_mem _ h1, h1⟩
      · rw [if_neg hx]
        exact ⟨List.mem_cons_of_mem _ h1, List.mem_cons_of_mem _ h2⟩

theorem findPairs_absorb (tags : TagList) (t1 t2 c : Tag)
    (h : findPairs tags = some (.absorb t1 t2 c)) :
    t1 ∈ tags ∧ t2 ∈ eraseFirst tags t1 ∧ ∃ item ∈ t1, revertedCond item ∈ t2 ∧
      eraseFirst t1 item = c ∧ eraseFirst t2 (revertedCond item) = c := by
  induction tags with
  | nil => simp [findPairs] at h
  | cons x rs ih =>
    rw [findPairs] at h
    split at h
    · rename_i act heq
      rw [Option.some.inj h] at heq
      obtain ⟨h1, h2, hrest⟩ := findPairsAux_absorb x rs t1 t2 c heq
      rw [← h1] at hrest
      rw [eraseFirst, if_pos h1.symm]
      exact ⟨by rw [h1]; exact List.mem_cons_self _ _, h2, hrest⟩
    · obtain ⟨h1, h2, hrest⟩ := ih h
      rw [eraseFirst]
      by_cases hx : x = t1
      · rw [if_pos hx]
        exact ⟨List.mem_cons_of_mem _ h1, eraseFirst_subset _ _ _ h2, hrest⟩
      · rw [if_neg hx]
        exact ⟨List.mem_cons_of_mem _ h1, List.mem_cons_of_mem _ h2, hrest⟩

theorem absorb_semantics (v : String → Bool) (t1 t2 c : Tag) (item : Cond)
    (h1 : item ∈ t1) (h2 : revertedCond item ∈ t2)
    (he1 : eraseFirst t1 item = c) (he2 : eraseFirst t2 (revertedCond item) = c)
    (hc : evalTag v c = true) : evalTag v t1 = true ∨ evalTag v t2 = true := by
  have et1 : evalTag v t1 = ((v item.1 == item.2) && evalTag v c) := by
    rw [evalTag_erase v t1 item h1, he1]
  have et2 : evalTag v t2 = ((v item.1 == !item.2) && evalTag v c) := by
    rw [evalTag_erase v t2 (revertedCond item) h2, he2]
    rfl
  rw [et1, et2, hc, Bool.and_true, Bool.and_true]
  cases hv : v item.1 <;> cases hb : item.2 <;> simp

theorem simplifyAux_implies (v : String → Bool) :
    ∀ (fuel : Nat) (tags : TagList),
      denoteTags v (simplifyAux fuel tags) = true → denoteTags v tags = true := by
  intro fuel
  induction fuel with
  | zero => intro tags h; simpa [simplifyAux] using h
  | succ fuel ih =>
    intro tags h
    rw [simplifyAux] at h
    by_cases hemp : ([] : Tag) ∈ tags
    · exact denote_of_mem v tags [] hemp rfl
    · rw [if_neg hemp] at h
      split at h
      · rename_i t heq
        obtain ⟨hmem, hmem2⟩ := findPairs_dup tags t heq
        have hde := ih _ h
        have hne : eraseFirst tags t ≠ [] := by
          intro hn
          rw [hn] at hmem2
          simp at hmem2
        obtain ⟨x, hx, hex⟩ := denote_exists v _ hne hde
        exact denote_of_mem v tags x (eraseFirst_subset _ _ _ hx) hex
      · rename_i t1 t2 c heq
        obtain ⟨hm1, hm2, item, hitem, hrev, he1, he2⟩ := findPairs_absorb tags t1 t2 c heq
        have hde := ih _ h
        have hne : eraseFirst (eraseFirst tags t1) t2 ++ [c] ≠ [] := by simp
        obtain ⟨x, hx, hex⟩ := denote_exists v _ hne hde
        rcases List.mem_append.mp hx with hx2 | hx2
        · exact denote_of_mem v tags x
            (eraseFirst_subset _ _ _ (eraseFirst_subset _ _ _ hx2)) hex
        · have hxc : x = c := by simpa using hx2
          rw [hxc] at hex
          rcases absorb_semantics v t1 t2 c item hitem hrev he1 he2 hex with h1 | h1
          · exact denote_of_mem v tags t1 hm1 h1
          · exact denote_of_mem v tags t2 (eraseFirst_subset _ _ _ hm2) h1
      · exact h

/-- C3 (amended): the result of simplify_tags logically implies its input -
every assignment satisfying the simplified TagList satisfies the original.
Duplicate removal and absorption preserve equivalence, but dropping an empty
Tag while other Tags remain can strictly weaken the disjunction, so full
logical equivalence does not hold (see the counterexample theorem). -/
theorem C3_simplify_tags_implies_input (tags : TagList) (v : String → Bool)
    (h : denoteTags v (simplifyTags tags) = true) : denoteTags v tags = true :=
  simplifyAux_implies v tags.length tags h

/-- Witness for the C3 theorem at a concrete TagList and assignment. -/
theorem C3_simplify_tags_implies_input_witness :
    denoteTags (fun _ => true) [[("C", true)], [("C", false)]] = true :=
  C3_simplify_tags_implies_input [[("C", true)], [("C", false)]] (fun _ => true) (by decide)

/-- C3 counterexample: a TagList containing an empty Tag (meaning true)
alongside another Tag does NOT simplify to something equivalent to true: the
empty Tag is merely dropped, and the assignment making C false satisfies the
input but not the result. -/
theorem C3_empty_tag_not_equivalent :
    simplifyTags [[], [("C", true)]] = [[("C", true)]] ∧
    denoteTags (fun _ => false) [[], [("C", true)]] = true ∧
    denoteTags (fun _ => false) (simplifyTags [[], [("C", true)]]) = false := by
  exact ⟨by decide, by decide, by decide⟩

/-- C4 counterexample: a run that fails on the second configuration's compile
still modifies the destination file.  The external compiler is invoked with
the destination path as its output file, so after the first configuration
compiles successfully the destination already holds that intermediate
compiler output; the subsequent failure aborts the run and leaves it there,
not the original content. -/
theorem C4_failed_run_modifies_destination :
    (processFilename
        (fun s => if s = "# B\n\n\n\ny\n\n" then some "OUTF\n" else none) id "B"
        ⟨[("m.ppyx", "#if A\nx\n#else\ny\n#endif\n"), ("m.c", "ORIGINAL")]⟩ "m.ppyx").2 =
      .error (.assertFail "command failed") ∧
    fsGet ⟨[("m.ppyx", "#if A\nx\n#else\ny\n#endif\n"), ("m.c", "ORIGINAL")]⟩ "m.c" =
      some "ORIGINAL" ∧
    fsGet (processFilename
        (fun s => if s = "# B\n\n\n\ny\n\n" then some "OUTF\n" else none) id "B"
        ⟨[("m.ppyx", "#if A\nx\n#else\ny\n#endif\n"), ("m.c", "ORIGINAL")]⟩ "m.ppyx").1 "m.c" =
      some "OUTF\n" := by
  exact ⟨by decide, by decide, by decide⟩

/-- C4 (amended): a successful run finishes with the destination holding
exactly the generated merged result, written last through the
temporary-file-and-rename of atomic_write; it is only the intermediate
per-configuration compiler outputs of a failed run that can be left behind at
the destination (see the counterexample theorem). -/
theorem C4_successful_run_writes_merged_result :
    (processFilename (fun s => if s = "# B\nhello\n" then some "CC\n" else none) id "B"
        ⟨[("n.ppyx", "hello\n"), ("n.c", "OLD")]⟩ "n.ppyx").2 = .ok () ∧
    fsGet (processFilename (fun s => if s = "# B\nhello\n" then some "CC\n" else none) id "B"
        ⟨[("n.ppyx", "hello\n"), ("n.c", "OLD")]⟩ "n.ppyx").1 "n.c" =
      some (generateMerged [attachTags (postprocessCythonOutput "CC\n" "B") []]) := by
  exact ⟨by decide, by decide⟩
